import Mathlib

/-!
# Verification of the birb declarative-UI reconciliation engine

This file gives a shallow embedding of the core of the repository:

* `ViewTree` / `diff` / `diff_subviews` / `add_view` / `update_view` /
  `replace_view` / `remove_view` / `render_root`  (src/core/src/view_tree.rs)
* `NVTree` and its patch application, in particular `subview_region`,
  `remove_view`, `set_root`, `update_view`, `replace_view`  (src/core/src/nv_tree.rs)
* `Host::poll` and the crossbeam channel drain loop  (src/src/host.rs)

and proves or refutes the frozen claims about them.

Modelling conventions:

* `ViewId` (a UUID in the source, minted by `ViewId::new`) is modelled as a `Nat`
  minted from a monotone counter stored in the tree, since only freshness and
  equality of ids matter.
* `HashMap` is modelled by an association list with Rust `HashMap` semantics:
  `alookup` finds the binding, `ainsert` overwrites in place (or appends a new
  binding), `aerase` deletes the binding.  Iteration over the leftover-subview
  `HashMap` in `diff_subviews` (whose order is unspecified in Rust) is
  determinised to insertion order.
* The `dyn View` trait objects are instantiated with a concrete descriptor
  language `VView`: the unit view `()`, the `Fragment` list view, and custom
  views carrying a type tag (`TypeId`), properties, an optional list key, an
  optional native payload (`native_type`/`native_view`) and a body.  `body` in
  the source is a function of the view's properties and state; here it is the
  stored `body` descriptor (state-independent bodies), which covers every claim.
  The inherited `context` threading (`subview_context` defaults to inheriting)
  is elided as no claim mentions it.
* Persistent state objects (`Box<dyn State>`) are modelled by a unique state id
  minted at `new_state` time; lifecycle effects (`new_state`, `will_update`,
  dropping the state on removal) are recorded in an event log.
* Rust panics (`unwrap`, `expect`, out-of-bounds `Vec` indexing/`insert`/
  `remove`, `unimplemented!`) are modelled by a `crashed` flag or an explicit
  failure value; they are never reached in well-formed executions.
-/

/-! ## Association-list maps with Rust `HashMap` semantics -/

abbrev ViewId := Nat

def alookup {κ α : Type} [DecidableEq κ] (m : List (κ × α)) (k : κ) : Option α :=
  match m with
  | [] => none
  | (k', v) :: rest => if k' = k then some v else alookup rest k

/-- `HashMap::insert`: overwrite the binding in place, else append. -/
def ainsert {κ α : Type} [DecidableEq κ] (m : List (κ × α)) (k : κ) (v : α) :
    List (κ × α) :=
  match m with
  | [] => [(k, v)]
  | (k', v') :: rest => if k' = k then (k, v) :: rest else (k', v') :: ainsert rest k v

/-- `HashMap::remove`: delete the binding. -/
def aerase {κ α : Type} [DecidableEq κ] (m : List (κ × α)) (k : κ) : List (κ × α) :=
  match m with
  | [] => []
  | (k', v') :: rest => if k' = k then rest else (k', v') :: aerase rest k

theorem alookup_ainsert {κ α : Type} [DecidableEq κ] (m : List (κ × α)) (k k' : κ) (v : α) :
    alookup (ainsert m k v) k' = if k = k' then some v else alookup m k' := by
  induction m with
  | nil => simp [ainsert, alookup]
  | cons hd tl ih =>
    obtain ⟨k₀, v₀⟩ := hd
    by_cases h₀ : k₀ = k
    · subst h₀
      by_cases h₁ : k₀ = k'
      · subst h₁; simp [ainsert, alookup]
      · simp [ainsert, alookup, h₁]
    · by_cases h₁ : k₀ = k'
      · subst h₁
        have hne : ¬k = k₀ := fun h => h₀ h.symm
        simp [ainsert, alookup, h₀, hne]
      · simp [ainsert, alookup, h₀, h₁, ih]

theorem alookup_ainsert_self {κ α : Type} [DecidableEq κ] (m : List (κ × α)) (k : κ) (v : α) :
    alookup (ainsert m k v) k = some v := by
  simp [alookup_ainsert]

theorem alookup_ainsert_ne {κ α : Type} [DecidableEq κ] (m : List (κ × α)) (k k' : κ) (v : α)
    (h : k ≠ k') : alookup (ainsert m k v) k' = alookup m k' := by
  simp [alookup_ainsert, h]

/-- Overwriting the binding with the value it already holds is a no-op. -/
theorem ainsert_self {κ α : Type} [DecidableEq κ] (m : List (κ × α)) (k : κ) (v : α)
    (h : alookup m k = some v) : ainsert m k v = m := by
  induction m with
  | nil => simp [alookup] at h
  | cons hd tl ih =>
    obtain ⟨k₀, v₀⟩ := hd
    by_cases h₀ : k₀ = k
    · subst h₀
      simp [alookup] at h
      simp [ainsert, h]
    · simp [alookup, h₀] at h
      simp [ainsert, h₀, ih h]

theorem ainsert_ainsert {κ α : Type} [DecidableEq κ] (m : List (κ × α)) (k : κ) (v v' : α) :
    ainsert (ainsert m k v) k v' = ainsert m k v' := by
  induction m with
  | nil => simp [ainsert]
  | cons hd tl ih =>
    obtain ⟨k₀, v₀⟩ := hd
    by_cases h₀ : k₀ = k
    · subst h₀; simp [ainsert]
    · simp [ainsert, h₀, ih]

theorem alookup_of_not_mem {κ α : Type} [DecidableEq κ] (m : List (κ × α)) (k : κ)
    (h : k ∉ m.map Prod.fst) : alookup m k = none := by
  induction m with
  | nil => rfl
  | cons hd tl ih =>
    obtain ⟨k₀, v₀⟩ := hd
    simp only [List.map_cons, List.mem_cons] at h
    push_neg at h
    have hne : ¬k₀ = k := fun hh => h.1 hh.symm
    simp [alookup, hne, ih h.2]

theorem alookup_aerase {κ α : Type} [DecidableEq κ] (m : List (κ × α)) (k k' : κ)
    (hnd : (m.map Prod.fst).Nodup) :
    alookup (aerase m k) k' = if k = k' then none else alookup m k' := by
  induction m with
  | nil => simp [aerase, alookup]
  | cons hd tl ih =>
    obtain ⟨k₀, v₀⟩ := hd
    simp only [List.map_cons, List.nodup_cons] at hnd
    by_cases h₀ : k₀ = k
    · subst h₀
      by_cases h₁ : k₀ = k'
      · subst h₁
        simp only [aerase, if_pos rfl]
        simp [alookup_of_not_mem tl k₀ hnd.1]
      · simp [aerase, alookup, h₁]
    · by_cases h₁ : k₀ = k'
      · subst h₁
        have hne : ¬k = k₀ := fun h => h₀ h.symm
        simp [aerase, alookup, h₀, hne]
      · simp [aerase, alookup, h₀, h₁, ih hnd.2]

/-! ## View descriptors -/

/-- The concrete descriptor language instantiating `dyn View<Ctx>`:
`empty` is the unit view `()`, `fragment` is `Fragment<Ctx> = Vec<Arc<dyn View>>`,
and `custom kind props key native body` is a user view struct whose Rust
`TypeId` is modelled by `kind`, whose fields are `props` and `key`, whose
`native_type()`/`native_view()` is `native` and whose `body` renders `body`. -/
inductive VView where
  | empty : VView
  | fragment : List VView → VView
  | custom (kind : Nat) (props : Nat) (key : Option Nat) (native : Option Nat)
      (body : VView) : VView

/-- Rust `TypeId` of a descriptor. -/
inductive VTag where
  | unit : VTag
  | frag : VTag
  | custom : Nat → VTag
deriving DecidableEq

def VView.tag : VView → VTag
  | .empty => .unit
  | .fragment _ => .frag
  | .custom k _ _ _ _ => .custom k

/-- `View::key`. `()` and `Fragment` use the default `None`. -/
def VView.keyOf : VView → Option Nat
  | .custom _ _ k _ _ => k
  | _ => none

/-- `View::native_type` / `native_view` (payload of a native view). -/
def VView.nativeOf : VView → Option Nat
  | .custom _ _ _ n _ => n
  | _ => none

/-- `View::body`: `()` renders `()`, `Fragment` renders itself (a clone), and a
custom view renders its stored body. -/
def VView.bodyOf : VView → VView
  | .empty => .empty
  | .fragment l => .fragment l
  | .custom _ _ _ _ b => b

mutual

def VView.beqv : VView → VView → Bool
  | .empty, .empty => true
  | .fragment l₁, .fragment l₂ => VView.beqList l₁ l₂
  | .custom k₁ p₁ key₁ n₁ b₁, .custom k₂ p₂ key₂ n₂ b₂ =>
    k₁ = k₂ && p₁ = p₂ && key₁ = key₂ && n₁ = n₂ && VView.beqv b₁ b₂
  | _, _ => false

def VView.beqList : List VView → List VView → Bool
  | [], [] => true
  | v₁ :: r₁, v₂ :: r₂ => VView.beqv v₁ v₂ && VView.beqList r₁ r₂
  | _, _ => false

end

mutual

def VView.vsize : VView → Nat
  | .empty => 1
  | .fragment l => 1 + VView.lsize l
  | .custom _ _ _ _ b => 1 + VView.vsize b

def VView.lsize : List VView → Nat
  | [] => 0
  | v :: rest => 1 + VView.vsize v + VView.lsize rest

end

example : VView.vsize (.fragment [.empty, .custom 0 0 none none .empty]) = 6 := by decide

example : VView.beqv (.custom 0 1 none (some 2) .empty) (.custom 0 1 none (some 2) .empty)
    = true := by decide

/-! ## The reconciler (`ViewTree`, src/core/src/view_tree.rs) -/

/-- `Patch` (nv_tree.rs:25-39); the `NativeView` payload is abstracted to a `Nat`. -/
inductive VPatch where
  | setRoot (id : ViewId)
  | update (id : ViewId) (payload : Nat)
  | replace (id : ViewId) (payload : Nat)
  | subviewRegion (id : ViewId) (pos : Nat) (len : Nat) (subviews : List ViewId)
  | remove (id : ViewId)
deriving DecidableEq

/-- Observable lifecycle effects on persistent state objects. -/
inductive VEvent where
  | stateCreated (id : ViewId) (sid : Nat)
  | willUpdate (id : ViewId)
  | stateDropped (id : ViewId) (sid : Nat)
deriving DecidableEq

structure Subregion where
  pos : Nat
  len : Nat
deriving DecidableEq

/-- `TreeNode` (view_tree.rs:14-33); `state : Box<dyn State>` is modelled by the
unique `stateId` minted when the state object was created; the inherited
`context` field is elided. -/
structure TreeNode where
  view : VView
  isNat : Bool
  superview : Option ViewId
  nvAncestor : Option ViewId
  nvSubregion : Subregion
  stateId : Nat
  subviews : List ViewId

/-- `ViewTree` (view_tree.rs:36-40) together with the bookkeeping for id
minting, state-object identity, the lifecycle event log and the panic flag. -/
structure ViewTree where
  nodes : List (ViewId × TreeNode)
  root : Option ViewId
  patches : List VPatch
  nextId : ViewId
  nextStateId : Nat
  events : List VEvent
  crashed : Bool

def ViewTree.new : ViewTree := ⟨[], none, [], 0, 0, [], false⟩

def pushPatch (t : ViewTree) (p : VPatch) : ViewTree :=
  { t with patches := t.patches ++ [p] }

def pushEvent (t : ViewTree) (e : VEvent) : ViewTree :=
  { t with events := t.events ++ [e] }

def setCrashed (t : ViewTree) : ViewTree := { t with crashed := true }

def setNode (t : ViewTree) (id : ViewId) (n : TreeNode) : ViewTree :=
  { t with nodes := ainsert t.nodes id n }

/-- `ViewTree::add_view` (view_tree.rs:169-203). -/
def addView (t : ViewTree) (id : ViewId) (v : VView) (start : Nat) : ViewTree :=
  let isNat := v.nativeOf.isSome
  let sid := t.nextStateId
  let t := pushEvent { t with nextStateId := sid + 1 } (.stateCreated id sid)
  let t := if isNat then pushPatch t (.update id (v.nativeOf.getD 0)) else t
  setNode t id ⟨v, isNat, none, none, ⟨start, 0⟩, sid, []⟩

/-- `ViewTree::update_view` (view_tree.rs:254-266). -/
def updateView (t : ViewTree) (id : ViewId) (v : VView) : ViewTree :=
  match alookup t.nodes id with
  | none => setCrashed t
  | some node =>
    let t := pushEvent t (.willUpdate id)
    let t := if node.isNat then pushPatch t (.update id (v.nativeOf.getD 0)) else t
    setNode t id { node with view := v }

/-- `ViewTree::remove_view` (view_tree.rs:208-216), fuelled by the recursion
depth (each recursive call removes a binding first, so `nodes.length + 1`
always suffices).  A missing node (`.expect`) or exhausted fuel sets the crash
flag.  The `Box<dyn State>` of the node is dropped when the node's own call
returns, i.e. after the recursion over its subviews. -/
def removeViewF : Nat → ViewTree → ViewId → Bool → ViewTree
  | 0, t, _, _ => setCrashed t
  | fuel+1, t, id, emit =>
    match alookup t.nodes id with
    | none => setCrashed t
    | some node =>
      let t := { t with nodes := aerase t.nodes id }
      let t := if emit && node.isNat then pushPatch t (.remove id) else t
      let t := node.subviews.foldl (fun t c => removeViewF fuel t c true) t
      pushEvent t (.stateDropped id node.stateId)

def removeView (t : ViewTree) (id : ViewId) (emit : Bool) : ViewTree :=
  removeViewF (t.nodes.length + 1) t id emit

/-- `ViewTree::replace_view` (view_tree.rs:221-251). -/
def replaceView (t : ViewTree) (id : ViewId) (v : VView) (start : Nat) : ViewTree :=
  match alookup t.nodes id with
  | none => setCrashed t
  | some current =>
    let superview := current.superview
    let nvAncestor := current.nvAncestor
    let wasNat := current.isNat
    let isNat := v.nativeOf.isSome
    let t := removeView t id false
    let t := addView t id v start
    let t := match alookup t.nodes id with
      | none => setCrashed t
      | some node =>
        setNode t id { node with isNat := isNat, superview := superview,
                                 nvAncestor := nvAncestor }
    if wasNat && isNat then pushPatch t (.replace id (v.nativeOf.getD 0))
    else if wasNat then pushPatch t (.remove id)
    else if isNat then pushPatch t (.update id (v.nativeOf.getD 0))
    else t

/-- The subview keys of `diff_subviews` (view_tree.rs:311-317). -/
inductive RKey where
  | user (k : Nat)
  | auto (k : Nat)
deriving DecidableEq

/-- Key assignment (view_tree.rs:319-345): a user key if present, otherwise the
next sequential auto-key (the counter skips user-keyed items). -/
def nextKey (key : Option Nat) (counter : Nat) : RKey × Nat :=
  match key with
  | some k => (.user k, counter)
  | none => (.auto counter, counter + 1)

/-- The `current_subviews_by_id` map (view_tree.rs:325-334): stored subviews
keyed by their (user or auto) key, `HashMap::insert` overwriting duplicates.
The second component records whether a lookup `self.nodes[&id]` panicked. -/
def buildKeyMap (t : ViewTree) (subviews : List ViewId) : List (RKey × ViewId) × Bool :=
  let step := fun (acc : List (RKey × ViewId) × Nat × Bool) (id : ViewId) =>
    let (m, counter, crash) := acc
    match alookup t.nodes id with
    | none => (m, counter, true)
    | some node =>
      let (key, counter') := nextKey node.view.keyOf counter
      (ainsert m key id, counter', crash)
  let (m, _, crash) := subviews.foldl step ([], 0, false)
  (m, crash)

/-- Normalisation of a rendered body into the subview list (view_tree.rs:294-305):
a `Fragment` is the list of subviews, `()` is no subviews at all, anything else
is a single subview. -/
def subviewList : VView → List VView
  | .fragment l => l
  | .empty => []
  | .custom k p key n b => [.custom k p key n b]

/-- Accumulator of the child loop in `diff_subviews` (view_tree.rs:336-377). -/
structure ChildLoop where
  t : ViewTree
  bykey : List (RKey × ViewId)
  autoCtr : Nat
  newSubviews : List ViewId
  nvSubviews : List ViewId
  cursor : Nat

/-- One iteration of the child loop of `diff_subviews` (view_tree.rs:341-377),
parameterised by the recursive entry `dif` (`ViewTree::diff` at the enclosing
fuel). -/
def childStep (dif : ViewTree → ViewId → VView → Nat → ViewTree × List ViewId)
    (superview : ViewId) (nvAncestor : Option ViewId) (st : ChildLoop) (view : VView) :
    ChildLoop :=
  let key := (nextKey view.keyOf st.autoCtr).1
  let autoCtr := (nextKey view.keyOf st.autoCtr).2
  match alookup st.bykey key with
  | some subviewId =>
    -- this new subview already has a corresponding old subview
    let bykey := aerase st.bykey key
    let res := dif st.t subviewId view st.cursor
    { t := res.1, bykey := bykey, autoCtr := autoCtr,
      newSubviews := st.newSubviews ++ [subviewId],
      nvSubviews := st.nvSubviews ++ res.2, cursor := st.cursor + res.2.length }
  | none =>
    -- no existing view with the same key, needs to be created (`ViewId::new`)
    let subviewId := st.t.nextId
    let t := { st.t with nextId := subviewId + 1 }
    let res := dif t subviewId view st.cursor
    let t := match alookup res.1.nodes subviewId with
      | none => setCrashed res.1
      | some n => setNode res.1 subviewId
          { n with superview := some superview, nvAncestor := nvAncestor }
    { t := t, bykey := st.bykey, autoCtr := autoCtr,
      newSubviews := st.newSubviews ++ [subviewId],
      nvSubviews := st.nvSubviews ++ res.2, cursor := st.cursor + res.2.length }

/-- `ViewTree::diff_subviews` (view_tree.rs:269-398), parameterised by the
recursive entry `dif` (`ViewTree::diff` at the enclosing fuel).  The iteration
over the leftover `HashMap` (line 380) is determinised to insertion order. -/
def diffSubviewsCore (dif : ViewTree → ViewId → VView → Nat → ViewTree × List ViewId)
    (t : ViewTree) (superview : ViewId) (subview : VView) (start : Nat) :
    ViewTree × List ViewId :=
  match alookup t.nodes superview with
  | none => (setCrashed t, [])
  | some superviewNode =>
    let nvAncestor := if superviewNode.isNat then some superview
                      else superviewNode.nvAncestor
    let nvSubregion := superviewNode.nvSubregion
    let subviews := subviewList subview
    let bykey0 := (buildKeyMap t superviewNode.subviews).1
    let t := if (buildKeyMap t superviewNode.subviews).2 then setCrashed t else t
    let st := subviews.foldl (childStep dif superview nvAncestor) ⟨t, bykey0, 0, [], [], start⟩
    -- unused subviews need to be removed (view_tree.rs:379-382)
    let t := st.bykey.foldl (fun t kv => removeView t kv.2 true) st.t
    -- the unconditional set-child-region patch (view_tree.rs:384-391)
    let t := match nvAncestor with
      | some a => pushPatch t (.subviewRegion a nvSubregion.pos nvSubregion.len st.nvSubviews)
      | none => t
    -- final bookkeeping on the superview node (view_tree.rs:393-396)
    let t := match alookup t.nodes superview with
      | none => setCrashed t
      | some n => setNode t superview
          { n with subviews := st.newSubviews,
                   nvSubregion := ⟨start, st.nvSubviews.length⟩ }
    (t, st.nvSubviews)

/-- The add/update/replace dispatch at the top of `ViewTree::diff`
(view_tree.rs:122-143).  `is_same_type` (the proxy hook) defaults to true, so
only the `TypeId` comparison decides sameness. -/
def diffBranch (t : ViewTree) (id : ViewId) (v : VView) (start : Nat) : ViewTree :=
  match alookup t.nodes id with
  | some node =>
    if node.view.tag = v.tag then
      (if node.view.beqv v then t else updateView t id v)
    else replaceView t id v start
  | none => addView t id v start

/-- `ViewTree::diff` (view_tree.rs:115-166), fuelled by body-nesting depth
(`VView.vsize` of the view always suffices). -/
def diffFuel : Nat → ViewTree → ViewId → VView → Nat → ViewTree × List ViewId
  | 0, t, _, _, _ => (setCrashed t, [])
  | fuel+1, t, id, v, start =>
    let t := diffBranch t id v start
    match alookup t.nodes id with
    | none => (setCrashed t, [])
    | some node =>
      let res := diffSubviewsCore (diffFuel fuel) t id node.view.bodyOf
        (if node.isNat then 0 else start)
      match alookup res.1.nodes id with
      | none => (setCrashed res.1, [])
      | some node2 =>
        if node2.isNat then
          (setNode res.1 id { node2 with nvSubregion := ⟨start, 1⟩ }, [id])
        else
          (setNode res.1 id { node2 with nvSubregion := ⟨start, res.2.length⟩ }, res.2)

def ViewTree.diff (t : ViewTree) (id : ViewId) (v : VView) (start : Nat) :
    ViewTree × List ViewId :=
  diffFuel (VView.vsize v) t id v start

/-- `ViewTree::render_root` (view_tree.rs:97-106). -/
def ViewTree.renderRoot (t : ViewTree) (v : VView) : ViewTree :=
  match t.root with
  | some root => (t.diff root v 0).1
  | none =>
    let rootId := t.nextId
    let t := { t with nextId := rootId + 1, root := some rootId }
    let t := (t.diff rootId v 0).1
    pushPatch t (.setRoot rootId)

/-! ## The native-view tree applier (`NVTree`, src/core/src/nv_tree.rs)

The `Backend` capability is modelled as an infallible recorder: every call is
logged, `new_view` returns a fresh handle from a counter.  `BackendError` is
therefore unreachable; Rust panics inside patch application are modelled by the
`panicFail` error outcome. -/

structure NVNode where
  view : Nat
  backingRef : Nat
  superview : Option ViewId
  subviews : List ViewId
  layout : Option Nat
deriving DecidableEq

inductive BCall where
  | newView (payload : Nat) (ref : Nat)
  | updateView (ref : Nat) (payload : Nat)
  | setRootView (ref : Nat)
  | removeView (ref : Nat)
  | setSubviews (ref : Nat) (offset : Nat) (len : Nat) (subrefs : List Nat)
deriving DecidableEq

/-- `PatchError` (nv_tree.rs:42-47); `backendFail` models `BackendError`
(unreachable with the recorder backend) and `panicFail` models a Rust panic. -/
inductive NPErr where
  | noSuchView (id : ViewId)
  | backendFail
  | cycle (id : ViewId)
  | panicFail
deriving DecidableEq

structure NVTree where
  nodes : List (ViewId × NVNode)
  nextRef : Nat
  calls : List BCall
deriving DecidableEq

def NVTree.new : NVTree := ⟨[], 0, []⟩

def logCall (t : NVTree) (c : BCall) : NVTree := { t with calls := t.calls ++ [c] }

/-- `NVTree::set_root` (nv_tree.rs:86-93). -/
def nvSetRoot (t : NVTree) (id : ViewId) : Option NPErr × NVTree :=
  match alookup t.nodes id with
  | some node => (none, logCall t (.setRootView node.backingRef))
  | none => (some (.noSuchView id), t)

/-- `NVTree::update_view` (nv_tree.rs:96-127). -/
def nvUpdateView (t : NVTree) (id : ViewId) (view : Nat) (bref : Option Nat) :
    Option NPErr × NVTree :=
  match alookup t.nodes id with
  | some node =>
    let t := logCall t (.updateView node.backingRef view)
    (none, { t with nodes := ainsert t.nodes id { node with view := view } })
  | none =>
    let (r, t) := match bref with
      | some r => (r, t)
      | none =>
        let r := t.nextRef
        (r, logCall { t with nextRef := r + 1 } (.newView view r))
    (none, { t with nodes := ainsert t.nodes id ⟨view, r, none, [], none⟩ })

/-- `NVTree::remove_view` (nv_tree.rs:137-157), fuelled by recursion depth
(each call removes a binding first, so `nodes.length + 1` always suffices).
Returns the backing ref when `dispatch` is false. -/
def nvRemoveViewF : Nat → NVTree → ViewId → Bool → Option NPErr × Option Nat × NVTree
  | 0, t, _, _ => (some .panicFail, none, t)
  | fuel+1, t, id, dispatch =>
    match alookup t.nodes id with
    | none => (some (.noSuchView id), none, t)
    | some node =>
      let t := { t with nodes := aerase t.nodes id }
      let res := node.subviews.foldl
        (fun (acc : Option NPErr × NVTree) c =>
          match acc with
          | (some e, t) => (some e, t)
          | (none, t) =>
            let (e, _, t) := nvRemoveViewF fuel t c true
            (e, t))
        (none, t)
      match res with
      | (some e, t) => (some e, none, t)
      | (none, t) =>
        if dispatch then (none, none, logCall t (.removeView node.backingRef))
        else (none, some node.backingRef, t)

def nvRemoveView (t : NVTree) (id : ViewId) (dispatch : Bool) :
    Option NPErr × Option Nat × NVTree :=
  nvRemoveViewF (t.nodes.length + 1) t id dispatch

/-- `NVTree::replace_view` (nv_tree.rs:129-134). -/
def nvReplaceView (t : NVTree) (id : ViewId) (view : Nat) : Option NPErr × NVTree :=
  match nvRemoveView t id false with
  | (some e, _, t) => (some e, t)
  | (none, some bref, t) => nvUpdateView t id view (some bref)
  | (none, none, t) => (some .panicFail, t)

/-- The overwrite loop of `subview_region` (nv_tree.rs:210-213):
`for (i, j) in (offset..len).zip(0..subviews.len()) { node.subviews[i] = subviews[j] }`.
Out-of-bounds indexing panics (`none`). -/
def spliceAssign (l : List ViewId) (ps : List (Nat × Nat)) (s : List ViewId) :
    Option (List ViewId) :=
  match ps with
  | [] => some l
  | (i, j) :: rest =>
    if i < l.length then spliceAssign (l.set i (s.getD j 0)) rest s else none

/-- The deletion loop of `subview_region` (nv_tree.rs:214-219):
repeatedly `Vec::remove(idx)`; removal past the end panics. -/
def spliceRemove (l : List ViewId) (idx : Nat) : Nat → Option (List ViewId)
  | 0 => some l
  | c+1 => if idx < l.length then spliceRemove (l.eraseIdx idx) idx c else none

/-- The insertion loop of `subview_region` (nv_tree.rs:220-227):
each extra entry is inserted at the same fixed index; `Vec::insert` past the
end panics. -/
def spliceInsert (l : List ViewId) (idx : Nat) : List ViewId → Option (List ViewId)
  | [] => some l
  | x :: rest =>
    if idx ≤ l.length then spliceInsert (l.insertIdx idx x) idx rest else none

/-- Rust `a..b`. -/
def rustRange (a b : Nat) : List Nat := List.range' a (b - a)

/-- The full subview-list splice of `NVTree::subview_region`
(nv_tree.rs:208-228) on the ancestor's stored child-id list. -/
def nvSplice (l : List ViewId) (offset len : Nat) (s : List ViewId) :
    Option (List ViewId) :=
  match spliceAssign l ((rustRange offset len).zip (rustRange 0 s.length)) s with
  | none => none
  | some l =>
    match (if s.length < len then spliceRemove l (offset + s.length) (len - s.length)
           else some l) with
    | none => none
    | some l =>
      if len < s.length then spliceInsert l (offset + s.length) (s.drop len)
      else some l

/-- `Modelled from the spec:` the splice rule of §4.3 ("overwrite the overlap
range `[offset, offset+old_length)` with as much of the new list as fits; if
the new list is shorter, delete the surplus trailing slots; if longer, insert
the extra entries immediately after the overlap"), stated as a reference
definition to compare the code against. -/
def specSplice (l : List ViewId) (offset len : Nat) (s : List ViewId) : List ViewId :=
  l.take offset ++ s ++ l.drop (offset + len)

/-- Phase 1 of `subview_region` (nv_tree.rs:168-175): set the superview
property of all subviews in order, returning early on the first missing one. -/
def nvSetSuperviews : NVTree → ViewId → List ViewId → Option NPErr × NVTree
  | t, _, [] => (none, t)
  | t, anc, s :: rest =>
    match alookup t.nodes s with
    | none => (some (.noSuchView s), t)
    | some n =>
      nvSetSuperviews
        { t with nodes := ainsert t.nodes s { n with superview := some anc } } anc rest

/-- Phase 3 of `subview_region` (nv_tree.rs:185-201): resolve the backing refs
of the new children against the map with the superview node removed; a missing
entry here is reported as a cycle. -/
def nvResolveRefs (nodes : List (ViewId × NVNode)) : List ViewId → Except ViewId (List Nat)
  | [] => .ok []
  | s :: rest =>
    match alookup nodes s with
    | none => .error s
    | some n =>
      match nvResolveRefs nodes rest with
      | .ok rs => .ok (n.backingRef :: rs)
      | .error e => .error e

/-- `NVTree::subview_region` (nv_tree.rs:161-232).  Note that on the cycle
error path the superview node has already been removed from the map and is
dropped by the early return. -/
def nvSubviewRegion (t : NVTree) (id : ViewId) (offset len : Nat)
    (subs : List ViewId) : Option NPErr × NVTree :=
  match nvSetSuperviews t id subs with
  | (some e, t) => (some e, t)
  | (none, t) =>
    match alookup t.nodes id with
    | none => (some (.noSuchView id), t)
    | some snode =>
      let t := { t with nodes := aerase t.nodes id }
      match nvResolveRefs t.nodes subs with
      | .error s => (some (.cycle s), t)
      | .ok refs =>
        let t := logCall t (.setSubviews snode.backingRef offset len refs)
        match nvSplice snode.subviews offset len subs with
        | none => (some .panicFail, t)
        | some newsubs =>
          (none, { t with nodes := ainsert t.nodes id { snode with subviews := newsubs } })

/-- `NVTree::patch` (nv_tree.rs:75-83). -/
def NVTree.patch (t : NVTree) (p : VPatch) : Option NPErr × NVTree :=
  match p with
  | .setRoot id => nvSetRoot t id
  | .update id v => nvUpdateView t id v none
  | .replace id v => nvReplaceView t id v
  | .subviewRegion id a b subs => nvSubviewRegion t id a b subs
  | .remove id =>
    let (e, _, t) := nvRemoveView t id true
    (e, t)

/-! ## The host poll loop (`Host::poll`, src/src/host.rs:47-55)

The crossbeam channel is modelled by its queued messages plus the disconnected
flag; `try_recv` delivers queued messages first, then reports `Empty` or
`Disconnected`.  The per-event handler `recv_raw_event` is `unimplemented!()`
in the source, so the loop is verified for an arbitrary event handler `h`
updating an abstract host state. -/

structure Channel (α : Type) where
  queue : List α
  disconnected : Bool

inductive TryRecvErr where
  | chanEmpty
  | chanDisconnected
deriving DecidableEq

/-- crossbeam `Receiver::try_recv`. -/
def tryRecv {α : Type} (ch : Channel α) : Except TryRecvErr (α × Channel α) :=
  match ch.queue with
  | e :: rest => .ok (e, { ch with queue := rest })
  | [] => if ch.disconnected then .error .chanDisconnected else .error .chanEmpty

/-- The loop body of `Host::poll`, fuelled (`queue.length + 1` always
suffices); `none` models the `panic!` on a disconnected sender (and the
unreachable fuel exhaustion). -/
def pollF {σ α : Type} (h : σ → α → σ) : Nat → σ → Channel α → Option (σ × Channel α)
  | 0, _, _ => none
  | fuel+1, s, ch =>
    match tryRecv ch with
    | .ok (e, ch) => pollF h fuel (h s e) ch
    | .error .chanEmpty => some (s, ch)
    | .error .chanDisconnected => none

/-- `Host::poll` (host.rs:47-55). -/
def hostPoll {σ α : Type} (h : σ → α → σ) (s : σ) (ch : Channel α) :
    Option (σ × Channel α) :=
  pollF h (ch.queue.length + 1) s ch

/-! ## Basic facts about the descriptor language -/

theorem beq_iff_aux : ∀ n : Nat,
    (∀ a b : VView, VView.vsize a ≤ n → (VView.beqv a b = true ↔ a = b)) ∧
    (∀ l₁ l₂ : List VView, VView.lsize l₁ ≤ n → (VView.beqList l₁ l₂ = true ↔ l₁ = l₂)) := by
  intro n
  induction n with
  | zero =>
    constructor
    · intro a b ha
      exfalso
      cases a <;> simp [VView.vsize] at ha
    · intro l₁ l₂ h₁
      cases l₁ with
      | nil => cases l₂ <;> simp [VView.beqList]
      | cons v r => simp [VView.lsize] at h₁
  | succ n ih =>
    constructor
    · intro a b ha
      cases a with
      | empty => cases b <;> simp [VView.beqv]
      | fragment l₁ =>
        cases b with
        | fragment l₂ =>
          simp only [VView.vsize] at ha
          have := ih.2 l₁ l₂ (by omega)
          simp [VView.beqv, this]
        | empty => simp [VView.beqv]
        | custom _ _ _ _ _ => simp [VView.beqv]
      | custom k₁ p₁ key₁ n₁ b₁ =>
        cases b with
        | custom k₂ p₂ key₂ n₂ b₂ =>
          simp only [VView.vsize] at ha
          have := ih.1 b₁ b₂ (by omega)
          simp [VView.beqv, this]
          tauto
        | empty => simp [VView.beqv]
        | fragment _ => simp [VView.beqv]
    · intro l₁ l₂ h₁
      cases l₁ with
      | nil => cases l₂ <;> simp [VView.beqList]
      | cons v r =>
        cases l₂ with
        | nil => simp [VView.beqList]
        | cons w s =>
          simp only [VView.lsize] at h₁
          have hv := ih.1 v w (by omega)
          have hr := ih.2 r s (by omega)
          simp [VView.beqList, hv, hr]

/-- `View::eq` (structural equality of descriptors) coincides with equality. -/
theorem VView.beqv_iff (a b : VView) : VView.beqv a b = true ↔ a = b :=
  (beq_iff_aux (VView.vsize a)).1 a b le_rfl

theorem VView.vsize_pos (v : VView) : 1 ≤ VView.vsize v := by
  cases v <;> simp [VView.vsize]

theorem vsize_le_lsize_of_mem {l : List VView} {v : VView} (h : v ∈ l) :
    VView.vsize v ≤ VView.lsize l := by
  induction l with
  | nil => cases h
  | cons w r ih =>
    rcases List.mem_cons.mp h with h | h
    · subst h; simp [VView.lsize]; omega
    · have := ih h
      simp [VView.lsize]; omega

/-- Every subview of a node's rendered body is strictly smaller than the
node's descriptor: the termination measure of `diff`. -/
theorem vsize_child_lt {v c : VView} (h : c ∈ subviewList v.bodyOf) :
    VView.vsize c < VView.vsize v := by
  cases v with
  | empty => simp [VView.bodyOf, subviewList] at h
  | fragment l =>
    simp only [VView.bodyOf, subviewList] at h
    have := vsize_le_lsize_of_mem h
    simp [VView.vsize]; omega
  | custom k p key n b =>
    simp only [VView.bodyOf] at h
    have hc : VView.vsize c ≤ VView.vsize b := by
      cases b with
      | empty => simp [subviewList] at h
      | fragment l =>
        simp only [subviewList] at h
        have := vsize_le_lsize_of_mem h
        simp [VView.vsize]; omega
      | custom k' p' key' n' b' =>
        simp only [subviewList, List.mem_singleton] at h
        subst h; exact le_rfl
    simp [VView.vsize]; omega

theorem foldl_congr_mem {α β : Type} (l : List β) (f g : α → β → α) (a : α)
    (h : ∀ acc b, b ∈ l → f acc b = g acc b) : l.foldl f a = l.foldl g a := by
  induction l generalizing a with
  | nil => rfl
  | cons b r ih =>
    simp only [List.foldl_cons, h a b (List.mem_cons_self b r)]
    exact ih _ (fun acc x hx => h acc x (List.mem_cons_of_mem b hx))

/-! ## Fuel stability of `diff` -/

theorem childStep_congr
    (dif₁ dif₂ : ViewTree → ViewId → VView → Nat → ViewTree × List ViewId)
    (sv : ViewId) (anc : Option ViewId) (st : ChildLoop) (c : VView)
    (h : ∀ t' i s', dif₁ t' i c s' = dif₂ t' i c s') :
    childStep dif₁ sv anc st c = childStep dif₂ sv anc st c := by
  unfold childStep
  cases alookup st.bykey ((nextKey c.keyOf st.autoCtr).1) with
  | some subviewId => simp only [h]
  | none => simp only [h]

theorem diffSubviewsCore_congr
    (dif₁ dif₂ : ViewTree → ViewId → VView → Nat → ViewTree × List ViewId)
    (t : ViewTree) (sv : ViewId) (subview : VView) (start : Nat)
    (h : ∀ t' i c s', c ∈ subviewList subview → dif₁ t' i c s' = dif₂ t' i c s') :
    diffSubviewsCore dif₁ t sv subview start = diffSubviewsCore dif₂ t sv subview start := by
  unfold diffSubviewsCore
  cases halo : alookup t.nodes sv with
  | none => rfl
  | some node =>
    simp only
    rw [foldl_congr_mem (subviewList subview)
      (childStep dif₁ sv (if node.isNat = true then some sv else node.nvAncestor))
      (childStep dif₂ sv (if node.isNat = true then some sv else node.nvAncestor))
      _ (fun acc c hc => childStep_congr dif₁ dif₂ _ _ acc c (fun t' i s' => h t' i c s' hc))]

@[simp] theorem pushPatch_nodes (t : ViewTree) (p : VPatch) :
    (pushPatch t p).nodes = t.nodes := rfl

@[simp] theorem pushEvent_nodes (t : ViewTree) (e : VEvent) :
    (pushEvent t e).nodes = t.nodes := rfl

@[simp] theorem setCrashed_nodes (t : ViewTree) : (setCrashed t).nodes = t.nodes := rfl

@[simp] theorem setNode_nodes (t : ViewTree) (id : ViewId) (n : TreeNode) :
    (setNode t id n).nodes = ainsert t.nodes id n := rfl

/-- After `add_view`, the node stores exactly the inserted fields. -/
theorem alookup_addView (t : ViewTree) (id : ViewId) (v : VView) (s : Nat) :
    alookup (addView t id v s).nodes id =
      some ⟨v, v.nativeOf.isSome, none, none, ⟨s, 0⟩, t.nextStateId, []⟩ := by
  cases hnat : v.nativeOf.isSome <;>
    simp [addView, hnat, setNode, pushPatch, pushEvent, alookup_ainsert_self]

/-- Whatever branch the `diff` dispatch takes, the node stored at `id`
afterwards (if any) carries the new descriptor. -/
theorem diffBranch_view (t : ViewTree) (id : ViewId) (v : VView) (s : Nat)
    (node' : TreeNode) (h : alookup (diffBranch t id v s).nodes id = some node') :
    node'.view = v := by
  unfold diffBranch at h
  cases h₀ : alookup t.nodes id with
  | none =>
    rw [h₀] at h
    rw [alookup_addView] at h
    cases h
    rfl
  | some node =>
    rw [h₀] at h
    have h : alookup (if node.view.tag = v.tag then
        (if node.view.beqv v = true then t else updateView t id v)
      else replaceView t id v s).nodes id = some node' := h
    by_cases htag : node.view.tag = v.tag
    · rw [if_pos htag] at h
      by_cases heq : node.view.beqv v = true
      · rw [if_pos heq, h₀] at h
        cases h
        exact (VView.beqv_iff _ _).mp heq
      · rw [if_neg heq] at h
        unfold updateView at h
        rw [h₀] at h
        have h : alookup (setNode (if node.isNat then
              pushPatch (pushEvent t (.willUpdate id)) (.update id (v.nativeOf.getD 0))
            else pushEvent t (.willUpdate id)) id { node with view := v }).nodes id
            = some node' := h
        have hnodes : (if node.isNat then
              pushPatch (pushEvent t (.willUpdate id)) (.update id (v.nativeOf.getD 0))
            else pushEvent t (.willUpdate id)).nodes = t.nodes := by
          cases node.isNat <;> rfl
        rw [setNode_nodes, hnodes, alookup_ainsert_self] at h
        cases h
        rfl
    · rw [if_neg htag] at h
      unfold replaceView at h
      rw [h₀] at h
      have h : alookup
          (let t2 := match alookup (addView (removeView t id false) id v s).nodes id with
             | none => setCrashed (addView (removeView t id false) id v s)
             | some n => setNode (addView (removeView t id false) id v s) id
                 { n with isNat := v.nativeOf.isSome, superview := node.superview,
                          nvAncestor := node.nvAncestor }
           if node.isNat && v.nativeOf.isSome then
             pushPatch t2 (.replace id (v.nativeOf.getD 0))
           else if node.isNat then pushPatch t2 (.remove id)
           else if v.nativeOf.isSome then pushPatch t2 (.update id (v.nativeOf.getD 0))
           else t2).nodes id = some node' := h
      rw [alookup_addView] at h
      have h : alookup
          (if node.isNat && v.nativeOf.isSome then
             pushPatch (setNode (addView (removeView t id false) id v s) id
               ⟨v, v.nativeOf.isSome, node.superview, node.nvAncestor, ⟨s, 0⟩,
                (removeView t id false).nextStateId, []⟩) (.replace id (v.nativeOf.getD 0))
           else if node.isNat then
             pushPatch (setNode (addView (removeView t id false) id v s) id
               ⟨v, v.nativeOf.isSome, node.superview, node.nvAncestor, ⟨s, 0⟩,
                (removeView t id false).nextStateId, []⟩) (.remove id)
           else if v.nativeOf.isSome then
             pushPatch (setNode (addView (removeView t id false) id v s) id
               ⟨v, v.nativeOf.isSome, node.superview, node.nvAncestor, ⟨s, 0⟩,
                (removeView t id false).nextStateId, []⟩) (.update id (v.nativeOf.getD 0))
           else setNode (addView (removeView t id false) id v s) id
               ⟨v, v.nativeOf.isSome, node.superview, node.nvAncestor, ⟨s, 0⟩,
                (removeView t id false).nextStateId, []⟩).nodes id = some node' := h
      have hnodes : ∀ tx : ViewTree,
          (if node.isNat && v.nativeOf.isSome then
             pushPatch tx (.replace id (v.nativeOf.getD 0))
           else if node.isNat then pushPatch tx (.remove id)
           else if v.nativeOf.isSome then pushPatch tx (.update id (v.nativeOf.getD 0))
           else tx).nodes = tx.nodes := by
        intro tx
        cases node.isNat <;> cases v.nativeOf.isSome <;> rfl
      rw [hnodes, setNode_nodes, alookup_ainsert_self] at h
      cases h
      rfl

/-- `diff` does not depend on the fuel as long as the fuel is at least the
size of the diffed descriptor. -/
theorem diffFuel_stable : ∀ (n : Nat) (v : VView) (f₁ f₂ : Nat) (t : ViewTree)
    (id : ViewId) (s : Nat), VView.vsize v ≤ n → VView.vsize v ≤ f₁ →
    VView.vsize v ≤ f₂ → diffFuel f₁ t id v s = diffFuel f₂ t id v s := by
  intro n
  induction n with
  | zero =>
    intro v f₁ f₂ t id s hn _ _
    have := VView.vsize_pos v
    omega
  | succ n ih =>
    intro v f₁ f₂ t id s hn h₁ h₂
    obtain ⟨g₁, rfl⟩ : ∃ g, f₁ = g + 1 := ⟨f₁ - 1, by have := VView.vsize_pos v; omega⟩
    obtain ⟨g₂, rfl⟩ : ∃ g, f₂ = g + 1 := ⟨f₂ - 1, by have := VView.vsize_pos v; omega⟩
    simp only [diffFuel]
    cases hb : alookup (diffBranch t id v s).nodes id with
    | none => rfl
    | some node =>
      simp only
      have hview : node.view = v := diffBranch_view t id v s node hb
      have hcong : diffSubviewsCore (diffFuel g₁) (diffBranch t id v s) id
            node.view.bodyOf (if node.isNat then 0 else s) =
          diffSubviewsCore (diffFuel g₂) (diffBranch t id v s) id
            node.view.bodyOf (if node.isNat then 0 else s) := by
        apply diffSubviewsCore_congr
        intro t' i c s' hc
        rw [hview] at hc
        have hlt := vsize_child_lt hc
        exact ih c g₁ g₂ t' i s' (by omega) (by omega) (by omega)
      rw [hcong]

/-- `diff` computes `diffFuel` at any sufficient fuel. -/
theorem diff_eq_fuel (f : Nat) (t : ViewTree) (id : ViewId) (v : VView) (s : Nat)
    (h : VView.vsize v ≤ f) : ViewTree.diff t id v s = diffFuel f t id v s :=
  diffFuel_stable (max (VView.vsize v) f) v (VView.vsize v) f t id s
    (le_max_left _ _) le_rfl h

/-! ## Concrete example trees used by the claims -/

/-- A native leaf view (payload 7) whose body is the empty view. -/
def vC1 : VView := .custom 0 0 none (some 7) .empty

def tC1a : ViewTree := ViewTree.new.renderRoot vC1

def tC1b : ViewTree := tC1a.renderRoot vC1

/-- `KindA(props1)`: a native view of kind 1. -/
def vA1 : VView := .custom 1 10 none (some 100) .empty

/-- `KindA(props2)`: same kind as `vA1`, different properties. -/
def vA2 : VView := .custom 1 11 none (some 101) .empty

/-- `KindB`: a native view of a different kind. -/
def vB4 : VView := .custom 2 10 none (some 200) .empty

def t4 : ViewTree := ViewTree.new.renderRoot vA1

def t4u : ViewTree := t4.renderRoot vA2

def t4r : ViewTree := t4.renderRoot vB4

/-- A renderable node with two renderable descendants. -/
def vC5 : VView := .custom 3 0 none (some 30)
  (.fragment [.custom 4 0 none (some 40) .empty, .custom 5 0 none (some 50) .empty])

def t5 : ViewTree := ViewTree.new.renderRoot vC5

def t5r : ViewTree := removeView t5 0 true

def vA6 : VView := .custom 6 0 none (some 60) .empty

def vB6 : VView := .custom 7 0 none (some 70) .empty

/-- `C(key=9)`. -/
def vC6 : VView := .custom 8 0 (some 9) (some 80) .empty

/-- A composite parent rendering `[A, B]`. -/
def vAB : VView := .custom 9 0 none none (.fragment [vA6, vB6])

/-- The same parent kind with new properties rendering `[A, C(key=9), B]`. -/
def vACB : VView := .custom 9 1 none none (.fragment [vA6, vC6, vB6])

def t6 : ViewTree := ViewTree.new.renderRoot vAB

def t6b : ViewTree := t6.renderRoot vACB

/-- The key-assignment sequence realised by the child loop and by
`buildKeyMap` from a given auto-key counter: each view's user key if present,
else the next sequential auto-key (`nextKey` threaded through the list). -/
def keysFrom : Nat → List (Option Nat) → List RKey
  | _, [] => []
  | c, k :: rest => (nextKey k c).1 :: keysFrom (nextKey k c).2 rest

/-- The key-assignment sequence starting from auto-key `0`
(view_tree.rs:319-345). -/
def keysOfViews (vs : List (Option Nat)) : List RKey := keysFrom 0 vs

/-! ## Claims -/

/-- C1 (counterexample): re-rendering the unchanged descriptor `vC1` a second
time via `render_root` does *not* produce zero patches: the second pass
enqueues a `SubviewRegion` patch for the (unchanged) child group of the native
root, because `diff_subviews` pushes that patch unconditionally whenever a
renderable ancestor exists. -/
theorem c1_rediff_counterexample :
    tC1b.patches.drop tC1a.patches.length = [.subviewRegion 0 0 1 []] ∧
    tC1b.patches.length ≠ tC1a.patches.length ∧ tC1b.crashed = false := by
  decide

/-- C2 (code evaluates against the spec splice): on stored child list
`[0,…,6]` with previous region `(offset=2, old_length=3)`, the applier's
splice of a new list of length 5 overwrites only the slots in `[offset,
old_length)` and inserts the extras at `offset+new_length` in reversed order,
differing from the §4.3 splice rule; the length still grows by 2, and the
shrinking case (new length 1) does match the rule. -/
theorem c2_splice_divergence :
    nvSplice [0,1,2,3,4,5,6] 2 3 [10,11,12,13,14] = some [0,1,10,3,4,5,6,14,13] ∧
    specSplice [0,1,2,3,4,5,6] 2 3 [10,11,12,13,14] = [0,1,10,11,12,13,14,5,6] ∧
    nvSplice [0,1,2,3,4,5,6] 2 3 [10,11,12,13,14] ≠
      some (specSplice [0,1,2,3,4,5,6] 2 3 [10,11,12,13,14]) ∧
    (nvSplice [0,1,2,3,4,5,6] 2 3 [10,11,12,13,14]).map List.length = some 9 ∧
    nvSplice [0,1,2,3,4,5,6] 2 3 [10] = some [0,1,10,5,6] ∧
    specSplice [0,1,2,3,4,5,6] 2 3 [10] = [0,1,10,5,6] := by
  decide

/-- C4 (counterexample): replacing `KindA` by `KindB` (both renderable) at the
same identity does *not* enqueue only a single `Replace` patch for that
identity: the internal re-add (`add_view`) first enqueues an `Update` patch
for the same identity, and the child pass adds a `SubviewRegion` patch. -/
theorem c4_update_replace_counterexample :
    t4r.patches.drop t4.patches.length =
      [.update 0 200, .replace 0 200, .subviewRegion 0 0 0 []] ∧
    VPatch.update 0 200 ∈ t4r.patches.drop t4.patches.length ∧
    t4r.crashed = false := by
  decide

/-- C4 (amended): diffing `KindA(props1)` then `KindA(props2)` invokes
`will_update` exactly once and enqueues exactly one `Update` patch and no
`Remove`; diffing `KindA` then `KindB` (both renderable) destroys the old
state, constructs a fresh one, and enqueues exactly one `Replace` patch —
preceded by one `Update` patch emitted by the internal re-add and followed by
the child-group `SubviewRegion` patch for the same identity. -/
theorem c4_update_replace_amended :
    t4u.patches.drop t4.patches.length = [.update 0 101, .subviewRegion 0 0 1 []] ∧
    t4u.events.drop t4.events.length = [.willUpdate 0] ∧
    (t4u.patches.drop t4.patches.length).count (.update 0 101) = 1 ∧
    (t4u.patches.drop t4.patches.length).all
      (fun p => match p with | .remove _ => false | _ => true) = true ∧
    t4r.patches.drop t4.patches.length =
      [.update 0 200, .replace 0 200, .subviewRegion 0 0 0 []] ∧
    t4r.events.drop t4.events.length = [.stateDropped 0 0, .stateCreated 0 1] ∧
    (t4r.patches.drop t4.patches.length).count (.replace 0 200) = 1 ∧
    t4u.crashed = false ∧ t4r.crashed = false := by
  decide

/-- C5 (counterexample): removing the renderable node `0` with renderable
descendants `1` and `2` emits the `Remove` patch for the node itself *before*
those of its descendants (pre-order), contradicting the claimed post-order. -/
theorem c5_teardown_counterexample :
    t5r.patches.drop t5.patches.length = [.remove 0, .remove 1, .remove 2] ∧
    (t5r.patches.drop t5.patches.length).head? = some (.remove 0) ∧
    t5r.crashed = false := by
  decide

/-- C5 (amended): removing a renderable node with two renderable descendants
emits the node's own `Remove` patch first and then its descendants' in order
(pre-order emission), and destroys every removed node's persistent state
exactly once (the state objects themselves are dropped children-first). -/
theorem c5_teardown_amended :
    t5r.patches.drop t5.patches.length = [.remove 0, .remove 1, .remove 2] ∧
    t5r.events.drop t5.events.length =
      [.stateDropped 1 1, .stateDropped 2 2, .stateDropped 0 0] ∧
    ((t5r.events.drop t5.events.length).count (.stateDropped 0 0) = 1 ∧
     (t5r.events.drop t5.events.length).count (.stateDropped 1 1) = 1 ∧
     (t5r.events.drop t5.events.length).count (.stateDropped 2 2) = 1) ∧
    t5r.nodes.map Prod.fst = [] ∧ t5r.crashed = false := by
  decide

/-- C6: siblings without an explicit key are auto-keyed sequentially skipping
user-keyed positions (`[A, B, C(key=1), D(key=2), E]` keys as
`0, 1, _, _, 2`), and reconciling `[A, B]` against `[A, C(key=9), B]`
preserves A's identity (1) and B's identity (2), creates only C (fresh id 3,
one fresh state), destroys nothing, and stores the children as `[1, 3, 2]`. -/
theorem c6_keyed_reconciliation :
    keysOfViews [none, none, some 1, some 2, none] =
      [.auto 0, .auto 1, .user 1, .user 2, .auto 2] ∧
    t6.nodes.map Prod.fst = [0, 1, 2] ∧
    (alookup t6.nodes 0).map TreeNode.subviews = some [1, 2] ∧
    t6b.nodes.map Prod.fst = [0, 1, 2, 3] ∧
    (alookup t6b.nodes 0).map TreeNode.subviews = some [1, 3, 2] ∧
    (alookup t6b.nodes 1).map TreeNode.stateId = (alookup t6.nodes 1).map TreeNode.stateId ∧
    (alookup t6b.nodes 2).map TreeNode.stateId = (alookup t6.nodes 2).map TreeNode.stateId ∧
    t6b.events.drop t6.events.length = [.willUpdate 0, .stateCreated 3 3] ∧
    t6b.crashed = false := by
  decide

/-! ## Field bookkeeping lemmas for the `ViewTree` combinators -/

@[simp] theorem pushPatch_events (t : ViewTree) (p : VPatch) :
    (pushPatch t p).events = t.events := rfl

@[simp] theorem pushPatch_root (t : ViewTree) (p : VPatch) :
    (pushPatch t p).root = t.root := rfl

@[simp] theorem pushPatch_nextId (t : ViewTree) (p : VPatch) :
    (pushPatch t p).nextId = t.nextId := rfl

@[simp] theorem pushPatch_nextStateId (t : ViewTree) (p : VPatch) :
    (pushPatch t p).nextStateId = t.nextStateId := rfl

@[simp] theorem pushPatch_crashed (t : ViewTree) (p : VPatch) :
    (pushPatch t p).crashed = t.crashed := rfl

@[simp] theorem pushEvent_patches (t : ViewTree) (e : VEvent) :
    (pushEvent t e).patches = t.patches := rfl

@[simp] theorem pushEvent_events (t : ViewTree) (e : VEvent) :
    (pushEvent t e).events = t.events ++ [e] := rfl

@[simp] theorem pushEvent_root (t : ViewTree) (e : VEvent) :
    (pushEvent t e).root = t.root := rfl

@[simp] theorem pushEvent_nextId (t : ViewTree) (e : VEvent) :
    (pushEvent t e).nextId = t.nextId := rfl

@[simp] theorem pushEvent_nextStateId (t : ViewTree) (e : VEvent) :
    (pushEvent t e).nextStateId = t.nextStateId := rfl

@[simp] theorem pushEvent_crashed (t : ViewTree) (e : VEvent) :
    (pushEvent t e).crashed = t.crashed := rfl

@[simp] theorem setNode_events (t : ViewTree) (id : ViewId) (n : TreeNode) :
    (setNode t id n).events = t.events := rfl

@[simp] theorem setNode_patches (t : ViewTree) (id : ViewId) (n : TreeNode) :
    (setNode t id n).patches = t.patches := rfl

@[simp] theorem setNode_root (t : ViewTree) (id : ViewId) (n : TreeNode) :
    (setNode t id n).root = t.root := rfl

@[simp] theorem setNode_nextId (t : ViewTree) (id : ViewId) (n : TreeNode) :
    (setNode t id n).nextId = t.nextId := rfl

@[simp] theorem setNode_nextStateId (t : ViewTree) (id : ViewId) (n : TreeNode) :
    (setNode t id n).nextStateId = t.nextStateId := rfl

@[simp] theorem setNode_crashed (t : ViewTree) (id : ViewId) (n : TreeNode) :
    (setNode t id n).crashed = t.crashed := rfl

/-! ## C10: the update step -/

/-- C10: updating an existing node in place changes only the stored
descriptor: the state object (`stateId`), the renderable flag, the superview
and nearest-renderable-ancestor links, the subregion and the ordered subview
list are untouched, every other node is untouched, and the only lifecycle
effect is one `will_update` on the existing state. -/
theorem c10_update_in_place (t : ViewTree) (id : ViewId) (v : VView)
    (n : TreeNode) (h : alookup t.nodes id = some n) :
    alookup (updateView t id v).nodes id =
      some ⟨v, n.isNat, n.superview, n.nvAncestor, n.nvSubregion, n.stateId, n.subviews⟩ ∧
    (∀ k, k ≠ id → alookup (updateView t id v).nodes k = alookup t.nodes k) ∧
    (updateView t id v).events = t.events ++ [.willUpdate id] ∧
    (updateView t id v).nextStateId = t.nextStateId ∧
    (updateView t id v).nextId = t.nextId ∧
    (updateView t id v).root = t.root ∧
    (updateView t id v).crashed = t.crashed := by
  simp only [updateView, h]
  cases hnat : n.isNat <;>
    simp only [Bool.false_eq_true, eq_self_iff_true, if_false, if_true] <;>
    exact ⟨alookup_ainsert_self _ _ _,
      fun k hk => alookup_ainsert_ne _ _ _ _ (fun hh => hk hh.symm),
      rfl, rfl, rfl, rfl, rfl⟩

def tC10 : ViewTree :=
  { nodes := [(5, ⟨.empty, false, none, none, ⟨0, 0⟩, 3, []⟩)], root := some 5,
    patches := [], nextId := 6, nextStateId := 4, events := [], crashed := false }

theorem c10_update_in_place_witness :
    alookup tC10.nodes 5 = some ⟨.empty, false, none, none, ⟨0, 0⟩, 3, []⟩ ∧
    alookup (updateView tC10 5 (.custom 0 0 none none .empty)).nodes 5 =
      some ⟨.custom 0 0 none none .empty, false, none, none, ⟨0, 0⟩, 3, []⟩ ∧
    (updateView tC10 5 (.custom 0 0 none none .empty)).events = [.willUpdate 5] :=
  ⟨rfl, (c10_update_in_place tC10 5 (.custom 0 0 none none .empty) _ rfl).1,
    (c10_update_in_place tC10 5 (.custom 0 0 none none .empty) _ rfl).2.2.1⟩

/-! ## C9: the host poll loop -/

theorem pollF_drain {σ α : Type} (h : σ → α → σ) :
    ∀ (q : List α) (d : Bool) (fuel : Nat) (s : σ), q.length < fuel →
    pollF h fuel s ⟨q, d⟩ = if d then none else some (q.foldl h s, ⟨[], d⟩) := by
  intro q
  induction q with
  | nil =>
    intro d fuel s hf
    obtain ⟨f, rfl⟩ : ∃ f, fuel = f + 1 := ⟨fuel - 1, by omega⟩
    cases d <;> simp [pollF, tryRecv]
  | cons e rest ih =>
    intro d fuel s hf
    obtain ⟨f, rfl⟩ : ∃ f, fuel = f + 1 := ⟨fuel - 1, by omega⟩
    simp only [pollF, tryRecv]
    rw [ih d f (h s e) (by simp at hf; omega)]
    simp

/-- C9: `Host::poll` drains the event channel completely before returning —
it processes every queued event in arrival order (a left fold of the handler)
and returns exactly when `try_recv` reports the channel empty; if the sending
side has disconnected, the loop panics (`none`) instead of returning. -/
theorem c9_poll_drains {σ α : Type} (h : σ → α → σ) (s : σ) (ch : Channel α) :
    hostPoll h s ch =
      if ch.disconnected then none
      else some (ch.queue.foldl h s, ⟨[], ch.disconnected⟩) := by
  obtain ⟨q, d⟩ := ch
  exact pollF_drain h q d (q.length + 1) s (Nat.lt_succ_self _)

/-! ## C3: NoSuchView error paths of the applier -/

/-- An applier tree with an ancestor node `1` and a child node `2`. -/
def nvT3 : NVTree := ⟨[(1, ⟨10, 0, none, [], none⟩), (2, ⟨20, 1, none, [], none⟩)], 2, []⟩

/-- C3 (counterexample): a `SubviewRegion` patch whose new child list mentions
the existing node `2` before the missing node `3` returns `NoSuchView 3` *and*
has already mutated the tree: node `2`'s superview link was set before the
missing child was discovered. -/
theorem c3_nosuchview_counterexample :
    (nvT3.patch (.subviewRegion 1 0 0 [2, 3])).1 = some (.noSuchView 3) ∧
    (nvT3.patch (.subviewRegion 1 0 0 [2, 3])).2 ≠ nvT3 ∧
    alookup (nvT3.patch (.subviewRegion 1 0 0 [2, 3])).2.nodes 2 =
      some ⟨20, 1, some 1, [], none⟩ ∧
    alookup nvT3.nodes 2 = some ⟨20, 1, none, [], none⟩ := by
  decide

/-- C3 (amended): a patch addressing an unknown identity returns `NoSuchView`
and is never silently dropped; when the failing lookup is the first map access
of the patch — `SetRoot`, `Remove` or `Replace` of an unknown id, or a
`SubviewRegion` whose ancestor is unknown and whose new child list is empty —
the applier's tree is returned exactly unchanged.  (A `NoSuchView` discovered
after earlier writes, as in the counterexample, leaves those writes in
place.) -/
theorem c3_nosuchview_amended (t : NVTree) (id : ViewId) (v : Nat) (a b : Nat)
    (h : alookup t.nodes id = none) :
    t.patch (.setRoot id) = (some (.noSuchView id), t) ∧
    t.patch (.remove id) = (some (.noSuchView id), t) ∧
    t.patch (.replace id v) = (some (.noSuchView id), t) ∧
    t.patch (.subviewRegion id a b []) = (some (.noSuchView id), t) := by
  refine ⟨?_, ?_, ?_, ?_⟩
  · simp [NVTree.patch, nvSetRoot, h]
  · simp [NVTree.patch, nvRemoveView, nvRemoveViewF, h]
  · simp [NVTree.patch, nvReplaceView, nvRemoveView, nvRemoveViewF, h]
  · simp [NVTree.patch, nvSubviewRegion, nvSetSuperviews, h]

theorem c3_nosuchview_amended_witness :
    alookup NVTree.new.nodes 9 = none ∧
    NVTree.new.patch (.setRoot 9) = (some (.noSuchView 9), NVTree.new) ∧
    NVTree.new.patch (.remove 9) = (some (.noSuchView 9), NVTree.new) :=
  ⟨rfl, (c3_nosuchview_amended NVTree.new 9 0 0 0 rfl).1,
    (c3_nosuchview_amended NVTree.new 9 0 0 0 rfl).2.1⟩

/-! ## C8: validation of SubviewRegion child lists -/

theorem find?_congr {α : Type} : ∀ (l : List α) (p q : α → Bool),
    (∀ x ∈ l, p x = q x) → l.find? p = l.find? q := by
  intro l
  induction l with
  | nil => intro p q _; rfl
  | cons x rest ih =>
    intro p q hpq
    simp only [List.find?]
    rw [hpq x (List.mem_cons_self x rest)]
    cases q x
    · exact ih p q (fun y hy => hpq y (List.mem_cons_of_mem x hy))
    · rfl

theorem ainsert_keys_of_mem {κ α : Type} [DecidableEq κ] (m : List (κ × α)) (k : κ)
    (v : α) (w : α) (h : alookup m k = some w) :
    (ainsert m k v).map Prod.fst = m.map Prod.fst := by
  induction m with
  | nil => simp [alookup] at h
  | cons hd tl ih =>
    obtain ⟨k₀, v₀⟩ := hd
    by_cases h₀ : k₀ = k
    · subst h₀; simp [ainsert]
    · simp only [alookup, if_neg h₀] at h
      simp [ainsert, h₀, ih h]

/-- Phase 1 fails with `NoSuchView` on the first missing child. -/
theorem nvSetSuperviews_none : ∀ (subs : List ViewId) (t : NVTree) (anc s : ViewId),
    subs.find? (fun x => (alookup t.nodes x).isNone) = some s →
    (nvSetSuperviews t anc subs).1 = some (.noSuchView s) := by
  intro subs
  induction subs with
  | nil => intro t anc s h; simp [List.find?] at h
  | cons x rest ih =>
    intro t anc s h
    simp only [List.find?] at h
    cases hx : alookup t.nodes x with
    | none =>
      rw [hx] at h
      simp only [Option.isNone_none] at h
      cases h
      simp [nvSetSuperviews, hx]
    | some n =>
      rw [hx] at h
      simp only [Option.isNone_some] at h
      simp only [nvSetSuperviews, hx]
      apply ih
      rw [find?_congr rest _ (fun y => (alookup t.nodes y).isNone) ?_]
      · exact h
      · intro y _
        rw [alookup_ainsert]
        by_cases hxy : x = y
        · subst hxy; simp [hx]
        · simp [hxy]

/-- Phase 1 succeeds when all children exist, preserving the key list and
which lookups succeed. -/
theorem nvSetSuperviews_ok : ∀ (subs : List ViewId) (t : NVTree) (anc : ViewId),
    (∀ x ∈ subs, (alookup t.nodes x).isSome) →
    ∃ t', nvSetSuperviews t anc subs = (none, t') ∧
      (∀ y, (alookup t'.nodes y).isSome = (alookup t.nodes y).isSome) ∧
      t'.nodes.map Prod.fst = t.nodes.map Prod.fst := by
  intro subs
  induction subs with
  | nil => intro t anc _; exact ⟨t, rfl, fun _ => rfl, rfl⟩
  | cons x rest ih =>
    intro t anc hall
    have hx := hall x (List.mem_cons_self x rest)
    cases hx' : alookup t.nodes x with
    | none => rw [hx'] at hx; simp at hx
    | some n =>
      have hpres : ∀ y, (alookup (ainsert t.nodes x { n with superview := some anc }) y).isSome
          = (alookup t.nodes y).isSome := by
        intro y
        rw [alookup_ainsert]
        by_cases hxy : x = y
        · subst hxy; simp [hx']
        · simp [hxy]
      obtain ⟨t', ht', hyp, hkeys⟩ := ih
        { t with nodes := ainsert t.nodes x { n with superview := some anc } } anc
        (fun y hy => by rw [hpres y]; exact hall y (List.mem_cons_of_mem x hy))
      refine ⟨t', ?_, ?_, ?_⟩
      · simp only [nvSetSuperviews, hx']
        exact ht'
      · intro y; rw [hyp y, hpres y]
      · rw [hkeys]
        exact ainsert_keys_of_mem t.nodes x _ n hx'

/-- Ref resolution reports the superview id as a cycle when it occurs among
the new children (it is the only id missing from the map at that point). -/
theorem nvResolveRefs_cycle : ∀ (subs : List ViewId) (nodes : List (ViewId × NVNode))
    (id : ViewId), id ∈ subs → alookup nodes id = none →
    (∀ x ∈ subs, x ≠ id → (alookup nodes x).isSome) →
    nvResolveRefs nodes subs = .error id := by
  intro subs
  induction subs with
  | nil => intro nodes id h; cases h
  | cons x rest ih =>
    intro nodes id hmem hid hother
    by_cases hx : x = id
    · subst hx
      simp [nvResolveRefs, hid]
    · have hsome := hother x (List.mem_cons_self x rest) hx
      cases hx' : alookup nodes x with
      | none => rw [hx'] at hsome; simp at hsome
      | some n =>
        have hmem' : id ∈ rest := by
          rcases List.mem_cons.mp hmem with h | h
          · exact absurd h.symm hx
          · exact h
        simp only [nvResolveRefs, hx']
        rw [ih nodes id hmem' hid
          (fun y hy hne => hother y (List.mem_cons_of_mem x hy) hne)]

/-- C8: applying a `SubviewRegion` patch validates the new child list before
committing: the first missing child id yields `NoSuchView` of that id, and a
child id equal to the ancestor's own id (all children existing) yields a
`Cycle` error naming it — neither is silently skipped. -/
theorem c8_subview_region_errors (t : NVTree) (id : ViewId) (off len : Nat)
    (subs : List ViewId) :
    (∀ s, subs.find? (fun x => (alookup t.nodes x).isNone) = some s →
      (nvSubviewRegion t id off len subs).1 = some (.noSuchView s)) ∧
    ((∀ x ∈ subs, (alookup t.nodes x).isSome) → (alookup t.nodes id).isSome →
      id ∈ subs → (t.nodes.map Prod.fst).Nodup →
      (nvSubviewRegion t id off len subs).1 = some (.cycle id)) := by
  constructor
  · intro s hfind
    have h1 := nvSetSuperviews_none subs t id s hfind
    unfold nvSubviewRegion
    cases hss : nvSetSuperviews t id subs with
    | mk e t₁ =>
      rw [hss] at h1
      simp only at h1
      cases h1
      rfl
  · intro hall hid hmem hnd
    obtain ⟨t₁, ht₁, hyp, hkeys⟩ := nvSetSuperviews_ok subs t id hall
    have hid₁ : (alookup t₁.nodes id).isSome = true := by rw [hyp id]; exact hid
    obtain ⟨snode, hsn⟩ := Option.isSome_iff_exists.mp hid₁
    have hnd₁ : (t₁.nodes.map Prod.fst).Nodup := by rw [hkeys]; exact hnd
    have hres : nvResolveRefs (aerase t₁.nodes id) subs = .error id := by
      apply nvResolveRefs_cycle subs _ id hmem
      · rw [alookup_aerase t₁.nodes id id hnd₁]
        simp
      · intro x hx hne
        rw [alookup_aerase t₁.nodes id x hnd₁, if_neg (fun hh => hne hh.symm), hyp x]
        exact hall x hx
    unfold nvSubviewRegion
    rw [ht₁]
    simp only [hsn]
    simp [hres]

def nvW8 : NVTree := ⟨[(0, ⟨5, 0, none, [], none⟩)], 1, []⟩

theorem c8_subview_region_errors_witness :
    (nvSubviewRegion nvW8 0 0 0 [1]).1 = some (.noSuchView 1) ∧
    (nvSubviewRegion nvW8 0 0 0 [0]).1 = some (.cycle 0) :=
  ⟨(c8_subview_region_errors nvW8 0 0 0 [1]).1 1 (by decide),
    (c8_subview_region_errors nvW8 0 0 0 [0]).2 (by decide) (by decide) (by decide)
      (by decide)⟩

/-! ## Well-keyed descriptors

The spec's §3 invariant: list-keys are unique within a single set of siblings
being reconciled at once (recursively through the whole descriptor). -/

def nodupB : List Nat → Bool
  | [] => true
  | x :: r => !(r.contains x) && nodupB r

def wellKeyedF : Nat → VView → Bool
  | 0, _ => false
  | fuel+1, v =>
    nodupB ((subviewList v.bodyOf).filterMap VView.keyOf) &&
      (subviewList v.bodyOf).all (fun c => wellKeyedF fuel c)

/-- The sibling-key-uniqueness invariant of spec §3, recursively. -/
def VView.wellKeyed (v : VView) : Bool := wellKeyedF (VView.vsize v) v

theorem all_congr_mem {α : Type} (l : List α) (p q : α → Bool)
    (h : ∀ x ∈ l, p x = q x) : l.all p = l.all q := by
  induction l with
  | nil => rfl
  | cons x rest ih =>
    simp only [List.all_cons, h x (List.mem_cons_self x rest)]
    rw [ih (fun y hy => h y (List.mem_cons_of_mem x hy))]

theorem wellKeyedF_stable : ∀ (n : Nat) (v : VView) (f₁ f₂ : Nat),
    VView.vsize v ≤ n → VView.vsize v ≤ f₁ → VView.vsize v ≤ f₂ →
    wellKeyedF f₁ v = wellKeyedF f₂ v := by
  intro n
  induction n with
  | zero => intro v f₁ f₂ hn _ _; have := VView.vsize_pos v; omega
  | succ n ih =>
    intro v f₁ f₂ hn h₁ h₂
    obtain ⟨g₁, rfl⟩ : ∃ g, f₁ = g + 1 := ⟨f₁ - 1, by have := VView.vsize_pos v; omega⟩
    obtain ⟨g₂, rfl⟩ : ∃ g, f₂ = g + 1 := ⟨f₂ - 1, by have := VView.vsize_pos v; omega⟩
    simp only [wellKeyedF]
    congr 1
    apply all_congr_mem
    intro c hc
    have hlt := vsize_child_lt hc
    exact ih c g₁ g₂ (by omega) (by omega) (by omega)

/-- A well-keyed descriptor's body children are well-keyed, with pairwise
distinct user keys. -/
theorem wellKeyed_children {v : VView} (h : v.wellKeyed = true) :
    nodupB ((subviewList v.bodyOf).filterMap VView.keyOf) = true ∧
    ∀ c ∈ subviewList v.bodyOf, c.wellKeyed = true := by
  unfold VView.wellKeyed at h
  obtain ⟨g, hg⟩ : ∃ g, VView.vsize v = g + 1 := ⟨VView.vsize v - 1, by
    have := VView.vsize_pos v; omega⟩
  rw [hg] at h
  simp only [wellKeyedF, Bool.and_eq_true, List.all_eq_true] at h
  refine ⟨h.1, fun c hc => ?_⟩
  have hlt := vsize_child_lt hc
  unfold VView.wellKeyed
  rw [wellKeyedF_stable (VView.vsize v) c (VView.vsize c) g (by omega) le_rfl (by omega)]
  exact h.2 c hc

/-! ## The representation invariant

`Rep lo nodes id v start` says the tree rooted at `id` stores exactly the
structure that a diff of descriptor `v` at subregion cursor `start` leaves
behind; every descendant node id is `≥ lo` (the id-minting watermark when the
subtree was built). -/

def lenSum (nodes : List (ViewId × TreeNode)) (ids : List ViewId) : Nat :=
  (ids.map (fun i => match alookup nodes i with
    | some n => n.nvSubregion.len
    | none => 0)).sum

theorem lenSum_nil (nodes : List (ViewId × TreeNode)) : lenSum nodes [] = 0 := rfl

theorem lenSum_cons (nodes : List (ViewId × TreeNode)) (i : ViewId) (is : List ViewId) :
    lenSum nodes (i :: is) =
      (match alookup nodes i with
        | some n => n.nvSubregion.len
        | none => 0) + lenSum nodes is := by
  simp [lenSum]

/-- Child lists paired with child descriptors at consecutive subregion
cursors. -/
def RepLF (R : ViewId → VView → Nat → Prop) (nodes : List (ViewId × TreeNode)) :
    List ViewId → List VView → Nat → Prop
  | [], [], _ => True
  | i :: is, cv :: cvs, c =>
    R i cv c ∧ ∃ n, alookup nodes i = some n ∧
      RepLF R nodes is cvs (c + n.nvSubregion.len)
  | _, _, _ => False

def RepF : Nat → Nat → List (ViewId × TreeNode) → ViewId → VView → Nat → Prop
  | 0, _, _, _, _, _ => False
  | fuel+1, lo, nodes, id, v, start =>
    ∃ n, alookup nodes id = some n ∧ n.view = v ∧
      n.isNat = v.nativeOf.isSome ∧
      n.nvSubregion.pos = start ∧
      n.nvSubregion.len = (if v.nativeOf.isSome then 1 else lenSum nodes n.subviews) ∧
      RepLF (fun i cv c => lo ≤ i ∧ RepF fuel lo nodes i cv c) nodes n.subviews
        (subviewList v.bodyOf) (if v.nativeOf.isSome then 0 else start)

def RepTree (lo : Nat) (nodes : List (ViewId × TreeNode)) (id : ViewId) (v : VView)
    (start : Nat) : Prop :=
  RepF (VView.vsize v) lo nodes id v start

theorem RepLF_congr (R₁ R₂ : ViewId → VView → Nat → Prop)
    (nodes : List (ViewId × TreeNode)) :
    ∀ (ids : List ViewId) (vs : List VView) (c : Nat),
    (∀ i cv c', cv ∈ vs → (R₁ i cv c' ↔ R₂ i cv c')) →
    (RepLF R₁ nodes ids vs c ↔ RepLF R₂ nodes ids vs c) := by
  intro ids
  induction ids with
  | nil =>
    intro vs c _
    cases vs <;> exact Iff.rfl
  | cons i is ih =>
    intro vs c hR
    cases vs with
    | nil => exact Iff.rfl
    | cons cv cvs =>
      simp only [RepLF]
      constructor
      · rintro ⟨h1, n, hn, hrest⟩
        exact ⟨(hR i cv c (List.mem_cons_self cv cvs)).mp h1, n, hn,
          (ih cvs _ (fun i' cv' c' hcv' => hR i' cv' c'
            (List.mem_cons_of_mem cv hcv'))).mp hrest⟩
      · rintro ⟨h1, n, hn, hrest⟩
        exact ⟨(hR i cv c (List.mem_cons_self cv cvs)).mpr h1, n, hn,
          (ih cvs _ (fun i' cv' c' hcv' => hR i' cv' c'
            (List.mem_cons_of_mem cv hcv'))).mpr hrest⟩

theorem RepF_stable : ∀ (m : Nat) (v : VView) (f₁ f₂ lo : Nat)
    (nodes : List (ViewId × TreeNode)) (id : ViewId) (start : Nat),
    VView.vsize v ≤ m → VView.vsize v ≤ f₁ → VView.vsize v ≤ f₂ →
    (RepF f₁ lo nodes id v start ↔ RepF f₂ lo nodes id v start) := by
  intro m
  induction m with
  | zero => intro v f₁ f₂ lo nodes id start hm _ _; have := VView.vsize_pos v; omega
  | succ m ih =>
    intro v f₁ f₂ lo nodes id start hm h₁ h₂
    obtain ⟨g₁, rfl⟩ : ∃ g, f₁ = g + 1 := ⟨f₁ - 1, by have := VView.vsize_pos v; omega⟩
    obtain ⟨g₂, rfl⟩ : ∃ g, f₂ = g + 1 := ⟨f₂ - 1, by have := VView.vsize_pos v; omega⟩
    simp only [RepF]
    constructor <;>
      rintro ⟨n, hn, hv, hnat, hpos, hlen, hch⟩ <;>
      refine ⟨n, hn, hv, hnat, hpos, hlen, ?_⟩ <;>
      [ (exact (RepLF_congr _ _ nodes n.subviews (subviewList v.bodyOf) _
          (fun i cv c' hcv => by
            have := vsize_child_lt hcv
            exact and_congr_right (fun _ =>
              ih cv g₁ g₂ lo nodes i c' (by omega) (by omega) (by omega)))).mp hch);
        (exact (RepLF_congr _ _ nodes n.subviews (subviewList v.bodyOf) _
          (fun i cv c' hcv => by
            have := vsize_child_lt hcv
            exact and_congr_right (fun _ =>
              (ih cv g₁ g₂ lo nodes i c' (by omega) (by omega) (by omega)).symm))).mp hch)]

/-- Transport of the representation invariant along a map change that
preserves (the `Rep`-relevant fields of) every binding at or above the
watermark. -/
theorem RepF_mono : ∀ (fuel lo : Nat) (M M' : List (ViewId × TreeNode)),
    (∀ k n, lo ≤ k → alookup M k = some n → ∃ n', alookup M' k = some n' ∧
      n'.view = n.view ∧ n'.isNat = n.isNat ∧ n'.nvSubregion = n.nvSubregion ∧
      n'.subviews = n.subviews) →
    ∀ (id : ViewId) (v : VView) (start : Nat), lo ≤ id →
    RepF fuel lo M id v start → RepF fuel lo M' id v start := by
  intro fuel
  induction fuel with
  | zero => intro lo M M' hext id v start hlo h; exact absurd h (by simp [RepF])
  | succ fuel ih =>
    intro lo M M' hext id v start hlo h
    obtain ⟨n, hn, hview, hnat, hpos, hlen, hch⟩ := h
    obtain ⟨n', hn', hv', hnat', hsr', hsv'⟩ := hext id n hlo hn
    have hpair : ∀ (ids : List ViewId) (vs : List VView) (c : Nat),
        RepLF (fun i cv cc => lo ≤ i ∧ RepF fuel lo M i cv cc) M ids vs c →
        RepLF (fun i cv cc => lo ≤ i ∧ RepF fuel lo M' i cv cc) M' ids vs c ∧
        lenSum M' ids = lenSum M ids := by
      intro ids
      induction ids with
      | nil =>
        intro vs c h
        cases vs with
        | nil => exact ⟨trivial, rfl⟩
        | cons _ _ => exact absurd h (by simp [RepLF])
      | cons i is ihl =>
        intro vs c h
        cases vs with
        | nil => exact absurd h (by simp [RepLF])
        | cons cv cvs =>
          obtain ⟨⟨hloi, hrep⟩, n₀, hn₀, hrest⟩ := h
          obtain ⟨n₀', hn₀', hv₀, hnat₀, hsr₀, hsv₀⟩ := hext i n₀ hloi hn₀
          obtain ⟨hrest', hlen'⟩ := ihl cvs (c + n₀.nvSubregion.len) hrest
          refine ⟨⟨⟨hloi, ih lo M M' hext i cv c hloi hrep⟩, n₀', hn₀', ?_⟩, ?_⟩
          · rw [hsr₀]; exact hrest'
          · simp only [lenSum, List.map_cons, List.sum_cons, hn₀, hn₀', hsr₀]
            have : (is.map (fun i => match alookup M' i with
                | some n => n.nvSubregion.len
                | none => 0)).sum = (is.map (fun i => match alookup M i with
                | some n => n.nvSubregion.len
                | none => 0)).sum := hlen'
            omega
    obtain ⟨hch', hlensum⟩ := hpair n.subviews (subviewList v.bodyOf)
      (if v.nativeOf.isSome then 0 else start) hch
    refine ⟨n', hn', by rw [hv', hview], by rw [hnat', hnat],
      by rw [hsr', hpos], ?_, ?_⟩
    · rw [hsr', hlen, hsv', hlensum]
    · rw [hsv']
      exact hch'

/-- Weakening the watermark. -/
theorem RepF_lo_mono : ∀ (fuel lo lo' : Nat) (M : List (ViewId × TreeNode))
    (id : ViewId) (v : VView) (start : Nat), lo' ≤ lo →
    RepF fuel lo M id v start → RepF fuel lo' M id v start := by
  intro fuel
  induction fuel with
  | zero => intro lo lo' M id v start _ h; exact absurd h (by simp [RepF])
  | succ fuel ih =>
    intro lo lo' M id v start hlo h
    obtain ⟨n, hn, hview, hnat, hpos, hlen, hch⟩ := h
    refine ⟨n, hn, hview, hnat, hpos, hlen, ?_⟩
    have : ∀ (ids : List ViewId) (vs : List VView) (c : Nat),
        RepLF (fun i cv cc => lo ≤ i ∧ RepF fuel lo M i cv cc) M ids vs c →
        RepLF (fun i cv cc => lo' ≤ i ∧ RepF fuel lo' M i cv cc) M ids vs c := by
      intro ids
      induction ids with
      | nil => intro vs c h; cases vs with
        | nil => exact trivial
        | cons _ _ => exact absurd h (by simp [RepLF])
      | cons i is ihl =>
        intro vs c h
        cases vs with
        | nil => exact absurd h (by simp [RepLF])
        | cons cv cvs =>
          obtain ⟨⟨hloi, hrep⟩, n₀, hn₀, hrest⟩ := h
          exact ⟨⟨le_trans hlo hloi, ih lo lo' M i cv c hlo hrep⟩, n₀, hn₀,
            ihl cvs _ hrest⟩
    exact this n.subviews (subviewList v.bodyOf) _ hch

/-! ## Field-preserving map extensions -/

/-- `M'` preserves every binding of `M` at or above the watermark, up to the
fields `Rep` does not track (`superview`, `nvAncestor`, `stateId`). -/
def FieldExt (lo : Nat) (M M' : List (ViewId × TreeNode)) : Prop :=
  ∀ k n, lo ≤ k → alookup M k = some n → ∃ n', alookup M' k = some n' ∧
    n'.view = n.view ∧ n'.isNat = n.isNat ∧ n'.nvSubregion = n.nvSubregion ∧
    n'.subviews = n.subviews

theorem FieldExt.refl (lo : Nat) (M : List (ViewId × TreeNode)) : FieldExt lo M M :=
  fun _ n _ h => ⟨n, h, rfl, rfl, rfl, rfl⟩

theorem FieldExt.trans {lo : Nat} {M₁ M₂ M₃ : List (ViewId × TreeNode)}
    (h₁ : FieldExt lo M₁ M₂) (h₂ : FieldExt lo M₂ M₃) : FieldExt lo M₁ M₃ := by
  intro k n hk hn
  obtain ⟨n', hn', a1, a2, a3, a4⟩ := h₁ k n hk hn
  obtain ⟨n'', hn'', b1, b2, b3, b4⟩ := h₂ k n' hk hn'
  exact ⟨n'', hn'', by rw [b1, a1], by rw [b2, a2], by rw [b3, a3], by rw [b4, a4]⟩

/-- A map change that leaves the lookup of every key below a bound unchanged,
where all keys of `M` are below that bound, is a field extension. -/
theorem FieldExt.of_frame {lo B : Nat} {M M' : List (ViewId × TreeNode)}
    (hframe : ∀ k, k < B → alookup M' k = alookup M k)
    (hbound : ∀ k, (alookup M k).isSome = true → k < B) :
    FieldExt lo M M' := by
  intro k n _ hn
  have hk : k < B := hbound k (by rw [hn]; rfl)
  exact ⟨n, by rw [hframe k hk, hn], rfl, rfl, rfl, rfl⟩

/-- Updating only `superview`/`nvAncestor` of one node is a field extension. -/
theorem FieldExt.of_setLinks (lo : Nat) (M : List (ViewId × TreeNode)) (j : ViewId)
    (nj : TreeNode) (sv : Option ViewId) (anc : Option ViewId)
    (hj : alookup M j = some nj) :
    FieldExt lo M (ainsert M j { nj with superview := sv, nvAncestor := anc }) := by
  intro k n _ hn
  by_cases hkj : j = k
  · subst hkj
    rw [hj] at hn
    cases hn
    exact ⟨_, alookup_ainsert_self _ _ _, rfl, rfl, rfl, rfl⟩
  · exact ⟨n, by rw [alookup_ainsert_ne _ _ _ _ hkj, hn], rfl, rfl, rfl, rfl⟩

/-- The node-local subregion-length invariant of spec §3 (claim C7), together
with the bookkeeping that all subviews are present and above a watermark. -/
def LocalOkB (lo : Nat) (M : List (ViewId × TreeNode)) (n : TreeNode) : Prop :=
  (∀ i ∈ n.subviews, lo ≤ i ∧ (alookup M i).isSome = true) ∧
  n.nvSubregion.len = (if n.isNat then 1 else lenSum M n.subviews)

theorem lenSum_congr {M M' : List (ViewId × TreeNode)} {ids : List ViewId}
    (h : ∀ i ∈ ids, alookup M' i = alookup M i) : lenSum M' ids = lenSum M ids := by
  unfold lenSum
  congr 1
  apply List.map_congr_left
  intro i hi
  rw [h i hi]

theorem LocalOkB_mono {lo : Nat} {M M' : List (ViewId × TreeNode)} {n : TreeNode}
    (hext : FieldExt lo M M') (h : LocalOkB lo M n) : LocalOkB lo M' n := by
  obtain ⟨hsub, hlen⟩ := h
  constructor
  · intro i hi
    obtain ⟨hlo, hsome⟩ := hsub i hi
    obtain ⟨ni, hni⟩ := Option.isSome_iff_exists.mp hsome
    obtain ⟨ni', hni', _, _, _, _⟩ := hext i ni hlo hni
    exact ⟨hlo, by rw [hni']; rfl⟩
  · rw [hlen]
    cases hnn : n.isNat
    · simp only [Bool.false_eq_true, if_false]
      unfold lenSum
      congr 1
      apply List.map_congr_left
      intro i hi
      obtain ⟨hlo, hsome⟩ := hsub i hi
      obtain ⟨ni, hni⟩ := Option.isSome_iff_exists.mp hsome
      obtain ⟨ni', hni', _, _, hsr, _⟩ := hext i ni hlo hni
      rw [hni, hni']
      simp only [hsr]
    · rfl

theorem LocalOkB_lo_mono {lo lo' : Nat} {M : List (ViewId × TreeNode)} {n : TreeNode}
    (hlo : lo' ≤ lo) (h : LocalOkB lo M n) : LocalOkB lo' M n :=
  ⟨fun i hi => ⟨le_trans hlo (h.1 i hi).1, (h.1 i hi).2⟩, h.2⟩

/-- Transport of a `RepTree` child list along a field extension. -/
theorem RepLF_transport {lo : Nat} {M M' : List (ViewId × TreeNode)}
    (hext : FieldExt lo M M') :
    ∀ (ids : List ViewId) (vs : List VView) (c : Nat),
    RepLF (fun i cv cc => lo ≤ i ∧ RepTree lo M i cv cc) M ids vs c →
    RepLF (fun i cv cc => lo ≤ i ∧ RepTree lo M' i cv cc) M' ids vs c := by
  intro ids
  induction ids with
  | nil =>
    intro vs c h
    cases vs with
    | nil => exact trivial
    | cons _ _ => exact absurd h (by simp [RepLF])
  | cons i is ih =>
    intro vs c h
    cases vs with
    | nil => exact absurd h (by simp [RepLF])
    | cons cv cvs =>
      obtain ⟨⟨hlo, hrep⟩, n, hn, hrest⟩ := h
      obtain ⟨n', hn', _, _, hsr, _⟩ := hext i n hlo hn
      refine ⟨⟨hlo, RepF_mono _ lo M M' hext i cv c hlo hrep⟩, n', hn', ?_⟩
      rw [hsr]
      exact ih cvs _ hrest

/-! ## Freshly diffing a descriptor builds the representation -/

@[simp] theorem addView_nextId (t : ViewTree) (id : ViewId) (v : VView) (s : Nat) :
    (addView t id v s).nextId = t.nextId := by
  unfold addView
  cases hnat : v.nativeOf.isSome <;> rfl

@[simp] theorem addView_root (t : ViewTree) (id : ViewId) (v : VView) (s : Nat) :
    (addView t id v s).root = t.root := by
  unfold addView
  cases hnat : v.nativeOf.isSome <;> rfl

@[simp] theorem addView_crashed (t : ViewTree) (id : ViewId) (v : VView) (s : Nat) :
    (addView t id v s).crashed = t.crashed := by
  unfold addView
  cases hnat : v.nativeOf.isSome <;> rfl

theorem addView_nodes (t : ViewTree) (id : ViewId) (v : VView) (s : Nat) :
    (addView t id v s).nodes =
      ainsert t.nodes id ⟨v, v.nativeOf.isSome, none, none, ⟨s, 0⟩, t.nextStateId, []⟩ := by
  cases hnat : v.nativeOf.isSome <;> simp [addView, hnat, setNode, pushPatch, pushEvent]

/-- What a fresh diff guarantees: frame below the minting watermark,
representation of the subtree, the returned native-id count, id bounds, and
the per-node subregion-length invariant for every touched binding. -/
def FreshConcl (t : ViewTree) (id : ViewId) (v : VView) (start : Nat)
    (res : ViewTree × List ViewId) : Prop :=
  (∀ k, k ≠ id → k < t.nextId → alookup res.1.nodes k = alookup t.nodes k) ∧
  RepTree t.nextId res.1.nodes id v start ∧
  (∃ n, alookup res.1.nodes id = some n ∧ res.2.length = n.nvSubregion.len) ∧
  t.nextId ≤ res.1.nextId ∧
  (∀ k, (alookup res.1.nodes k).isSome = true → k < res.1.nextId) ∧
  res.1.root = t.root ∧ res.1.crashed = t.crashed ∧
  (∀ k n, alookup res.1.nodes k = some n →
    alookup t.nodes k = some n ∨ LocalOkB t.nextId res.1.nodes n)

/-- Evaluation of one child-loop step when the old-subview key map is empty:
a fresh id is minted, diffed, and its superview links set. -/
theorem childStep_empty (dif : ViewTree → ViewId → VView → Nat → ViewTree × List ViewId)
    (sv : ViewId) (anc : Option ViewId) (st : ChildLoop) (c : VView)
    (hb : st.bykey = []) :
    childStep dif sv anc st c =
      { t := (match alookup (dif { st.t with nextId := st.t.nextId + 1 }
                st.t.nextId c st.cursor).1.nodes st.t.nextId with
          | none => setCrashed (dif { st.t with nextId := st.t.nextId + 1 }
              st.t.nextId c st.cursor).1
          | some n => setNode (dif { st.t with nextId := st.t.nextId + 1 }
              st.t.nextId c st.cursor).1 st.t.nextId
              { n with superview := some sv, nvAncestor := anc }),
        bykey := st.bykey, autoCtr := (nextKey c.keyOf st.autoCtr).2,
        newSubviews := st.newSubviews ++ [st.t.nextId],
        nvSubviews := st.nvSubviews ++
          (dif { st.t with nextId := st.t.nextId + 1 } st.t.nextId c st.cursor).2,
        cursor := st.cursor +
          (dif { st.t with nextId := st.t.nextId + 1 } st.t.nextId c st.cursor).2.length } := by
  unfold childStep
  rw [hb]
  rfl

/-- One fresh child-loop step: mints one id, diffs the child, and maintains
all loop invariants. -/
theorem childStep_fresh_step (g m : Nat)
    (IH : ∀ (c : VView) (t : ViewTree) (id : ViewId) (start : Nat),
      VView.vsize c ≤ m → VView.vsize c ≤ g → alookup t.nodes id = none →
      (∀ k, (alookup t.nodes k).isSome = true → k < t.nextId) → id < t.nextId →
      FreshConcl t id c start (diffFuel g t id c start))
    (sv : ViewId) (anc : Option ViewId) (lo : Nat) (st : ChildLoop) (c : VView)
    (hcm : VView.vsize c ≤ m) (hcg : VView.vsize c ≤ g)
    (hb : st.bykey = [])
    (hlo : lo ≤ st.t.nextId)
    (hbound : ∀ k, (alookup st.t.nodes k).isSome = true → k < st.t.nextId) :
    st.bykey = (childStep (diffFuel g) sv anc st c).bykey ∧
    (∀ k, k < st.t.nextId →
      alookup (childStep (diffFuel g) sv anc st c).t.nodes k = alookup st.t.nodes k) ∧
    st.t.nextId < (childStep (diffFuel g) sv anc st c).t.nextId ∧
    (∀ k, (alookup (childStep (diffFuel g) sv anc st c).t.nodes k).isSome = true →
      k < (childStep (diffFuel g) sv anc st c).t.nextId) ∧
    (childStep (diffFuel g) sv anc st c).t.root = st.t.root ∧
    (childStep (diffFuel g) sv anc st c).t.crashed = st.t.crashed ∧
    (childStep (diffFuel g) sv anc st c).newSubviews = st.newSubviews ++ [st.t.nextId] ∧
    (∃ n, alookup (childStep (diffFuel g) sv anc st c).t.nodes st.t.nextId = some n ∧
      RepTree lo (childStep (diffFuel g) sv anc st c).t.nodes st.t.nextId c st.cursor ∧
      (childStep (diffFuel g) sv anc st c).nvSubviews =
        st.nvSubviews ++ (diffFuel g { st.t with nextId := st.t.nextId + 1 }
          st.t.nextId c st.cursor).2 ∧
      (diffFuel g { st.t with nextId := st.t.nextId + 1 }
          st.t.nextId c st.cursor).2.length = n.nvSubregion.len ∧
      (childStep (diffFuel g) sv anc st c).cursor = st.cursor + n.nvSubregion.len) ∧
    (∀ k n, alookup (childStep (diffFuel g) sv anc st c).t.nodes k = some n →
      alookup st.t.nodes k = some n ∨
        LocalOkB lo (childStep (diffFuel g) sv anc st c).t.nodes n) := by
  have hnone : alookup st.t.nodes st.t.nextId = none := by
    cases hlk : alookup st.t.nodes st.t.nextId with
    | none => rfl
    | some n =>
      exact absurd (hbound st.t.nextId (by rw [hlk]; rfl)) (lt_irrefl _)
  have hfresh := IH c { st.t with nextId := st.t.nextId + 1 } st.t.nextId st.cursor
    hcm hcg hnone (fun k hk => Nat.lt_succ_of_lt (hbound k hk)) (Nat.lt_succ_self _)
  obtain ⟨hframe, hrep, ⟨nc, hnc, hlenc⟩, hnext, hbound', hroot, hcrash, hdisj⟩ := hfresh
  have hcs : childStep (diffFuel g) sv anc st c =
      { t := setNode (diffFuel g { st.t with nextId := st.t.nextId + 1 }
            st.t.nextId c st.cursor).1 st.t.nextId
            { nc with superview := some sv, nvAncestor := anc },
        bykey := st.bykey, autoCtr := (nextKey c.keyOf st.autoCtr).2,
        newSubviews := st.newSubviews ++ [st.t.nextId],
        nvSubviews := st.nvSubviews ++ (diffFuel g { st.t with nextId := st.t.nextId + 1 }
            st.t.nextId c st.cursor).2,
        cursor := st.cursor + (diffFuel g { st.t with nextId := st.t.nextId + 1 }
            st.t.nextId c st.cursor).2.length } := by
    rw [childStep_empty (diffFuel g) sv anc st c hb, hnc]
  have hT : (childStep (diffFuel g) sv anc st c).t =
      setNode (diffFuel g { st.t with nextId := st.t.nextId + 1 }
        st.t.nextId c st.cursor).1 st.t.nextId
        { nc with superview := some sv, nvAncestor := anc } := by rw [hcs]
  have hBy : (childStep (diffFuel g) sv anc st c).bykey = st.bykey := by rw [hcs]
  have hNS : (childStep (diffFuel g) sv anc st c).newSubviews =
      st.newSubviews ++ [st.t.nextId] := by rw [hcs]
  have hNV : (childStep (diffFuel g) sv anc st c).nvSubviews =
      st.nvSubviews ++ (diffFuel g { st.t with nextId := st.t.nextId + 1 }
        st.t.nextId c st.cursor).2 := by rw [hcs]
  have hCur : (childStep (diffFuel g) sv anc st c).cursor =
      st.cursor + (diffFuel g { st.t with nextId := st.t.nextId + 1 }
        st.t.nextId c st.cursor).2.length := by rw [hcs]
  have hext1 : FieldExt lo (diffFuel g { st.t with nextId := st.t.nextId + 1 }
        st.t.nextId c st.cursor).1.nodes
      (ainsert (diffFuel g { st.t with nextId := st.t.nextId + 1 }
        st.t.nextId c st.cursor).1.nodes st.t.nextId
        { nc with superview := some sv, nvAncestor := anc }) :=
    FieldExt.of_setLinks lo _ st.t.nextId nc (some sv) anc hnc
  refine ⟨hBy.symm, ?_, ?_, ?_, ?_, ?_, hNS, ?_, ?_⟩
  · show ∀ k, k < st.t.nextId →
        alookup (childStep (diffFuel g) sv anc st c).t.nodes k = alookup st.t.nodes k
    intro k hk
    rw [hT, setNode_nodes]
    rw [alookup_ainsert_ne _ st.t.nextId k _ (Nat.ne_of_gt hk)]
    exact hframe k (Nat.ne_of_lt hk) (Nat.lt_succ_of_lt hk)
  · rw [hT]
    show st.t.nextId < (diffFuel g { st.t with nextId := st.t.nextId + 1 }
      st.t.nextId c st.cursor).1.nextId
    exact Nat.lt_of_lt_of_le (Nat.lt_succ_self st.t.nextId) hnext
  · intro k hk
    rw [hT, setNode_nodes] at hk
    rw [hT]
    show k < (diffFuel g { st.t with nextId := st.t.nextId + 1 }
      st.t.nextId c st.cursor).1.nextId
    rw [alookup_ainsert] at hk
    by_cases hks : st.t.nextId = k
    · subst hks
      exact Nat.lt_of_lt_of_le (Nat.lt_succ_self st.t.nextId) hnext
    · rw [if_neg hks] at hk
      exact hbound' k hk
  · rw [hT]
    exact hroot
  · rw [hT]
    exact hcrash
  · refine ⟨{ nc with superview := some sv, nvAncestor := anc }, ?_, ?_, hNV, hlenc, ?_⟩
    · rw [hT, setNode_nodes]
      exact alookup_ainsert_self _ _ _
    · rw [hT, setNode_nodes]
      apply RepF_mono _ lo _ _ hext1 st.t.nextId c st.cursor hlo
      exact RepF_lo_mono _ (st.t.nextId + 1) lo _ st.t.nextId c st.cursor
        (le_trans hlo (Nat.le_succ st.t.nextId)) hrep
    · rw [hCur, hlenc]
  · intro k n hkn
    rw [hT, setNode_nodes] at hkn
    rw [hT, setNode_nodes]
    rw [alookup_ainsert] at hkn
    by_cases hks : st.t.nextId = k
    · rw [if_pos hks] at hkn
      cases hkn
      right
      have h1 := hdisj st.t.nextId nc hnc
      rcases h1 with h1 | h1
      · rw [hnone] at h1
        cases h1
      · exact LocalOkB_mono hext1
          (LocalOkB_lo_mono (le_trans hlo (Nat.le_succ st.t.nextId)) h1)
    · rw [if_neg hks] at hkn
      rcases hdisj k n hkn with h1 | h1
      · left
        exact h1
      · right
        exact LocalOkB_mono hext1
          (LocalOkB_lo_mono (le_trans hlo (Nat.le_succ st.t.nextId)) h1)

/-- The whole child loop of `diff_subviews` over an empty old-subview key map:
every child is freshly minted and diffed, and the loop assembles the
representation of the child list. -/
theorem childLoop_fresh (g m : Nat)
    (IH : ∀ (c : VView) (t : ViewTree) (id : ViewId) (start : Nat),
      VView.vsize c ≤ m → VView.vsize c ≤ g → alookup t.nodes id = none →
      (∀ k, (alookup t.nodes k).isSome = true → k < t.nextId) → id < t.nextId →
      FreshConcl t id c start (diffFuel g t id c start))
    (sv : ViewId) (anc : Option ViewId) (lo : Nat) :
    ∀ (cs : List VView) (st : ChildLoop),
      (∀ c ∈ cs, VView.vsize c ≤ m ∧ VView.vsize c ≤ g) →
      st.bykey = [] →
      lo ≤ st.t.nextId →
      (∀ k, (alookup st.t.nodes k).isSome = true → k < st.t.nextId) →
      ((cs.foldl (childStep (diffFuel g) sv anc) st).bykey = [] ∧
       (∀ k, k < st.t.nextId →
         alookup (cs.foldl (childStep (diffFuel g) sv anc) st).t.nodes k =
           alookup st.t.nodes k) ∧
       st.t.nextId ≤ (cs.foldl (childStep (diffFuel g) sv anc) st).t.nextId ∧
       (∀ k, (alookup (cs.foldl (childStep (diffFuel g) sv anc) st).t.nodes k).isSome
          = true → k < (cs.foldl (childStep (diffFuel g) sv anc) st).t.nextId) ∧
       (cs.foldl (childStep (diffFuel g) sv anc) st).t.root = st.t.root ∧
       (cs.foldl (childStep (diffFuel g) sv anc) st).t.crashed = st.t.crashed ∧
       (∃ newIds,
         (cs.foldl (childStep (diffFuel g) sv anc) st).newSubviews =
           st.newSubviews ++ newIds ∧
         (∀ i ∈ newIds, st.t.nextId ≤ i) ∧
         RepLF (fun i cv c => lo ≤ i ∧
             RepTree lo (cs.foldl (childStep (diffFuel g) sv anc) st).t.nodes i cv c)
           (cs.foldl (childStep (diffFuel g) sv anc) st).t.nodes newIds cs st.cursor ∧
         (∃ nvAdd, (cs.foldl (childStep (diffFuel g) sv anc) st).nvSubviews =
             st.nvSubviews ++ nvAdd ∧
           nvAdd.length =
             lenSum (cs.foldl (childStep (diffFuel g) sv anc) st).t.nodes newIds ∧
           (cs.foldl (childStep (diffFuel g) sv anc) st).cursor =
             st.cursor + nvAdd.length)) ∧
       (∀ k n, alookup (cs.foldl (childStep (diffFuel g) sv anc) st).t.nodes k = some n →
         alookup st.t.nodes k = some n ∨
           LocalOkB lo (cs.foldl (childStep (diffFuel g) sv anc) st).t.nodes n)) := by
  intro cs
  induction cs with
  | nil =>
    intro st _ hb hlo hbound
    refine ⟨hb, fun k _ => rfl, le_rfl, hbound, rfl, rfl,
      ⟨[], (List.append_nil _).symm, fun i hi => absurd hi (List.not_mem_nil i),
        trivial, [], (List.append_nil _).symm, rfl, (Nat.add_zero _).symm⟩,
      fun k n h => Or.inl h⟩
  | cons c cs' ihl =>
    intro st hcs hb hlo hbound
    simp only [List.foldl_cons]
    obtain ⟨hstep1, hstep2, hstep3, hstep4, hstep5, hstep6, hstep7,
      ⟨n₁, hn₁, hrep₁, hnv₁, hlen₁, hcur₁⟩, hstep9⟩ :=
      childStep_fresh_step g m IH sv anc lo st c
        (hcs c (List.mem_cons_self c cs')).1 (hcs c (List.mem_cons_self c cs')).2
        hb hlo hbound
    obtain ⟨hi1, hi2, hi3, hi4, hi5, hi6,
      ⟨newIds', hni1, hni2, hni3, nvAdd', hna1, hna2, hna3⟩, hi8⟩ :=
      ihl (childStep (diffFuel g) sv anc st c)
        (fun x hx => hcs x (List.mem_cons_of_mem c hx)) (hstep1.symm.trans hb)
        (le_trans hlo (le_of_lt hstep3)) hstep4
    have hextRest : FieldExt lo (childStep (diffFuel g) sv anc st c).t.nodes
        (cs'.foldl (childStep (diffFuel g) sv anc)
          (childStep (diffFuel g) sv anc st c)).t.nodes :=
      FieldExt.of_frame hi2 hstep4
    refine ⟨hi1, ?_, le_trans (le_of_lt hstep3) hi3, hi4, by rw [hi5, hstep5],
      by rw [hi6, hstep6], ?_, ?_⟩
    · intro k hk
      rw [hi2 k (lt_trans hk hstep3), hstep2 k hk]
    · refine ⟨st.t.nextId :: newIds', ?_, ?_, ?_, ?_⟩
      · rw [hni1, hstep7, List.append_assoc]
        rfl
      · intro i hi
        rcases List.mem_cons.mp hi with h | h
        · exact le_of_eq h.symm
        · exact le_trans (le_of_lt hstep3) (hni2 i h)
      · -- the RepLF cons node
        have hsidlookup : alookup (cs'.foldl (childStep (diffFuel g) sv anc)
            (childStep (diffFuel g) sv anc st c)).t.nodes st.t.nextId = some n₁ := by
          rw [hi2 st.t.nextId hstep3]
          exact hn₁
        refine ⟨⟨hlo, ?_⟩, n₁, hsidlookup, ?_⟩
        · exact RepF_mono _ lo _ _ hextRest st.t.nextId c st.cursor hlo hrep₁
        · rw [← hcur₁]
          exact hni3
      · refine ⟨(diffFuel g { st.t with nextId := st.t.nextId + 1 }
            st.t.nextId c st.cursor).2 ++ nvAdd', ?_, ?_, ?_⟩
        · rw [hna1, hnv₁, List.append_assoc]
        · have hsidlookup : alookup (cs'.foldl (childStep (diffFuel g) sv anc)
              (childStep (diffFuel g) sv anc st c)).t.nodes st.t.nextId = some n₁ := by
            rw [hi2 st.t.nextId hstep3]
            exact hn₁
          rw [List.length_append, hlen₁, hna2, lenSum_cons, hsidlookup]
        · rw [hna3, hcur₁, List.length_append, hlen₁, Nat.add_assoc]
    · intro k n hkn
      rcases hi8 k n hkn with h | h
      · rcases hstep9 k n h with h' | h'
        · exact Or.inl h'
        · exact Or.inr (LocalOkB_mono hextRest h')
      · exact Or.inr h

/-- Evaluation of `diff_subviews` when the superview's stored subview list is
empty (the freshly-added case). -/
theorem diffSubviewsCore_fresh_eq
    (dif : ViewTree → ViewId → VView → Nat → ViewTree × List ViewId)
    (t : ViewTree) (sv : ViewId) (body : VView) (substart : Nat) (nsv : TreeNode)
    (hlksv : alookup t.nodes sv = some nsv) (hsubs : nsv.subviews = []) :
    diffSubviewsCore dif t sv body substart =
      (let st := (subviewList body).foldl (childStep dif sv
          (if nsv.isNat then some sv else nsv.nvAncestor))
          ⟨t, [], 0, [], [], substart⟩
       let t2 := st.bykey.foldl (fun t kv => removeView t kv.2 true) st.t
       let t3 := (match (if nsv.isNat then some sv else nsv.nvAncestor) with
         | some a => pushPatch t2 (.subviewRegion a nsv.nvSubregion.pos
             nsv.nvSubregion.len st.nvSubviews)
         | none => t2)
       let t4 := (match alookup t3.nodes sv with
         | none => setCrashed t3
         | some n => setNode t3 sv
             { n with subviews := st.newSubviews,
                      nvSubregion := ⟨substart, st.nvSubviews.length⟩ })
       (t4, st.nvSubviews)) := by
  unfold diffSubviewsCore
  rw [hlksv]
  simp only [hsubs]
  rfl

/-- The child loop of `diff_subviews` started from a fresh (empty) accumulator. -/
def childFold (g : Nat) (sv : ViewId) (anc : Option ViewId) (body : VView)
    (t : ViewTree) (substart : Nat) : ChildLoop :=
  (subviewList body).foldl (childStep (diffFuel g) sv anc) ⟨t, [], 0, [], [], substart⟩

theorem diffFuel_fresh_eval_nat (g' : Nat) (t : ViewTree) (id : ViewId) (v : VView)
    (start : Nat) (hnone : alookup t.nodes id = none)
    (hnat : v.nativeOf.isSome = true)
    (hby : (childFold g' id (some id) v.bodyOf (addView t id v start) 0).bykey = [])
    (n₂ : TreeNode)
    (hlk2 : alookup (childFold g' id (some id) v.bodyOf
      (addView t id v start) 0).t.nodes id = some n₂)
    (hn2nat : n₂.isNat = true) :
    diffFuel (g' + 1) t id v start =
      (setNode
        (setNode
          (pushPatch (childFold g' id (some id) v.bodyOf (addView t id v start) 0).t
            (.subviewRegion id start 0
              (childFold g' id (some id) v.bodyOf (addView t id v start) 0).nvSubviews))
          id { n₂ with
            subviews := (childFold g' id (some id) v.bodyOf
              (addView t id v start) 0).newSubviews,
            nvSubregion := ⟨0, (childFold g' id (some id) v.bodyOf
              (addView t id v start) 0).nvSubviews.length⟩ })
        id { n₂ with
          subviews := (childFold g' id (some id) v.bodyOf
            (addView t id v start) 0).newSubviews,
          nvSubregion := ⟨start, 1⟩ },
       [id]) := by
  have hbranch : diffBranch t id v start = addView t id v start := by
    unfold diffBranch
    rw [hnone]
  have hlk₁ : alookup (addView t id v start).nodes id =
      some ⟨v, true, none, none, ⟨start, 0⟩, t.nextStateId, []⟩ := by
    rw [addView_nodes, hnat]
    exact alookup_ainsert_self _ _ _
  have hDS := diffSubviewsCore_fresh_eq (diffFuel g') (addView t id v start) id
    v.bodyOf 0 ⟨v, true, none, none, ⟨start, 0⟩, t.nextStateId, []⟩ hlk₁ rfl
  simp only [reduceIte] at hDS
  have hcf : List.foldl (childStep (diffFuel g') id (some id))
      (⟨addView t id v start, [], 0, [], [], 0⟩ : ChildLoop) (subviewList v.bodyOf) =
      childFold g' id (some id) v.bodyOf (addView t id v start) 0 := rfl
  rw [hcf] at hDS
  unfold diffFuel
  rw [hbranch]
  simp only [hlk₁, if_true]
  rw [hDS]
  simp only [hby, List.foldl_nil, pushPatch_nodes, hlk2, setNode_nodes,
    alookup_ainsert_self, hn2nat, reduceIte]

theorem diffFuel_fresh_eval_nonnat (g' : Nat) (t : ViewTree) (id : ViewId) (v : VView)
    (start : Nat) (hnone : alookup t.nodes id = none)
    (hnat : v.nativeOf.isSome = false)
    (hby : (childFold g' id none v.bodyOf (addView t id v start) start).bykey = [])
    (n₂ : TreeNode)
    (hlk2 : alookup (childFold g' id none v.bodyOf
      (addView t id v start) start).t.nodes id = some n₂)
    (hn2nat : n₂.isNat = false) :
    diffFuel (g' + 1) t id v start =
      (setNode
        (setNode (childFold g' id none v.bodyOf (addView t id v start) start).t
          id { n₂ with
            subviews := (childFold g' id none v.bodyOf
              (addView t id v start) start).newSubviews,
            nvSubregion := ⟨start, (childFold g' id none v.bodyOf
              (addView t id v start) start).nvSubviews.length⟩ })
        id { n₂ with
          subviews := (childFold g' id none v.bodyOf
            (addView t id v start) start).newSubviews,
          nvSubregion := ⟨start, (childFold g' id none v.bodyOf
            (addView t id v start) start).nvSubviews.length⟩ },
       (childFold g' id none v.bodyOf (addView t id v start) start).nvSubviews) := by
  have hbranch : diffBranch t id v start = addView t id v start := by
    unfold diffBranch
    rw [hnone]
  have hlk₁ : alookup (addView t id v start).nodes id =
      some ⟨v, false, none, none, ⟨start, 0⟩, t.nextStateId, []⟩ := by
    rw [addView_nodes, hnat]
    exact alookup_ainsert_self _ _ _
  have hDS := diffSubviewsCore_fresh_eq (diffFuel g') (addView t id v start) id
    v.bodyOf start ⟨v, false, none, none, ⟨start, 0⟩, t.nextStateId, []⟩ hlk₁ rfl
  simp only [Bool.false_eq_true, if_false] at hDS
  have hcf : List.foldl (childStep (diffFuel g') id none)
      (⟨addView t id v start, [], 0, [], [], start⟩ : ChildLoop) (subviewList v.bodyOf) =
      childFold g' id none v.bodyOf (addView t id v start) start := rfl
  rw [hcf] at hDS
  unfold diffFuel
  rw [hbranch]
  simp only [hlk₁, Bool.false_eq_true, if_false]
  rw [hDS]
  simp only [hby, List.foldl_nil, hlk2, setNode_nodes,
    alookup_ainsert_self, hn2nat, Bool.false_eq_true, if_false]

theorem RepLF_lookup (R : ViewId → VView → Nat → Prop)
    (nodes : List (ViewId × TreeNode)) :
    ∀ (ids : List ViewId) (vs : List VView) (c : Nat),
    RepLF R nodes ids vs c → ∀ i ∈ ids, (alookup nodes i).isSome = true := by
  intro ids
  induction ids with
  | nil => intro vs c _ i hi; exact absurd hi (List.not_mem_nil i)
  | cons j js ih =>
    intro vs c h i hi
    cases vs with
    | nil => exact absurd h (by simp [RepLF])
    | cons cv cvs =>
      obtain ⟨_, n, hn, hrest⟩ := h
      rcases List.mem_cons.mp hi with rfl | hm
      · rw [hn]; rfl
      · exact ih cvs _ hrest i hm

theorem setNode_setNode_pushPatch (u : ViewTree) (P : VPatch) (a b : TreeNode)
    (i : ViewId) :
    setNode (setNode (pushPatch u P) i a) i b =
      { u with nodes := ainsert u.nodes i b, patches := u.patches ++ [P] } := by
  simp only [setNode, pushPatch, ainsert_ainsert]

theorem setNode_setNode (u : ViewTree) (a b : TreeNode) (i : ViewId) :
    setNode (setNode u i a) i b = { u with nodes := ainsert u.nodes i b } := by
  simp only [setNode, ainsert_ainsert]

/-- Diffing a descriptor at an id with no existing binding (the fresh-subtree
path of `ViewTree::diff`) establishes the representation invariant, frames
every binding below the minting watermark, and leaves every touched binding
satisfying the local subregion-length invariant. -/
theorem diff_fresh : ∀ (m g : Nat) (v : VView) (t : ViewTree) (id : ViewId)
    (start : Nat),
    VView.vsize v ≤ m → VView.vsize v ≤ g → alookup t.nodes id = none →
    (∀ k, (alookup t.nodes k).isSome = true → k < t.nextId) → id < t.nextId →
    FreshConcl t id v start (diffFuel g t id v start) := by
  intro m
  induction m with
  | zero =>
    intro g v t id start hm _ _ _ _
    exact absurd hm (by have := VView.vsize_pos v; omega)
  | succ m ih =>
    intro g v t id start hm hg hnone hbound hid
    obtain ⟨g', rfl⟩ : ∃ g0, g = g0 + 1 :=
      ⟨g - 1, by have := VView.vsize_pos v; omega⟩
    obtain ⟨s, hs⟩ : ∃ s, VView.vsize v = s + 1 :=
      ⟨VView.vsize v - 1, by have := VView.vsize_pos v; omega⟩
    have hsize : ∀ c ∈ subviewList v.bodyOf,
        VView.vsize c ≤ m ∧ VView.vsize c ≤ g' := by
      intro c hc
      have := vsize_child_lt hc
      omega
    have hbound₁ : ∀ k, (alookup (addView t id v start).nodes k).isSome = true →
        k < (addView t id v start).nextId := by
      intro k hk
      rw [addView_nodes, alookup_ainsert] at hk
      rw [addView_nextId]
      by_cases hkid : id = k
      · subst hkid
        exact hid
      · rw [if_neg hkid] at hk
        exact hbound k hk
    have hlo₁ : t.nextId ≤ (addView t id v start).nextId :=
      le_of_eq (addView_nextId t id v start).symm
    cases hnat : v.nativeOf.isSome with
    | true =>
      have hlk₁ : alookup (addView t id v start).nodes id =
          some ⟨v, true, none, none, ⟨start, 0⟩, t.nextStateId, []⟩ := by
        rw [addView_nodes, hnat]
        exact alookup_ainsert_self _ _ _
      obtain ⟨hFby, hFframe, hFnext, hFbound, hFroot, hFcrash,
        ⟨newIds, hnew, hnewlo, hrepl, nvAdd, hnv, hnvlen, hcur⟩, hFdisj⟩ :=
        childLoop_fresh g' m (ih g') id (some id) t.nextId (subviewList v.bodyOf)
          ⟨addView t id v start, [], 0, [], [], 0⟩ hsize rfl hlo₁ hbound₁
      have hcf : List.foldl (childStep (diffFuel g') id (some id))
          (⟨addView t id v start, [], 0, [], [], 0⟩ : ChildLoop)
          (subviewList v.bodyOf) =
          childFold g' id (some id) v.bodyOf (addView t id v start) 0 := rfl
      simp only [hcf, addView_nextId, addView_root, addView_crashed, List.nil_append] at hFby hFframe hFnext hFbound hFroot hFcrash hnew hnewlo hrepl hnv hnvlen hcur hFdisj
      have hextT : ∀ (b : TreeNode), FieldExt t.nextId
          (childFold g' id (some id) v.bodyOf (addView t id v start) 0).t.nodes
          (ainsert (childFold g' id (some id) v.bodyOf
            (addView t id v start) 0).t.nodes id b) := by
        intro b k n hk hn
        refine ⟨n, ?_, rfl, rfl, rfl, rfl⟩
        rw [alookup_ainsert_ne _ _ _ _ (Nat.ne_of_lt (lt_of_lt_of_le hid hk))]
        exact hn
      have hlk2 : alookup (childFold g' id (some id) v.bodyOf
          (addView t id v start) 0).t.nodes id =
          some ⟨v, true, none, none, ⟨start, 0⟩, t.nextStateId, []⟩ :=
        (hFframe id hid).trans hlk₁
      have heval := diffFuel_fresh_eval_nat g' t id v start hnone hnat hFby
        ⟨v, true, none, none, ⟨start, 0⟩, t.nextStateId, []⟩ hlk2 rfl
      rw [setNode_setNode_pushPatch] at heval
      rw [heval]
      unfold FreshConcl
      dsimp only
      refine ⟨?_, ?_, ⟨_, alookup_ainsert_self _ _ _, rfl⟩, hFnext, ?_, hFroot,
        hFcrash, ?_⟩
      · intro k hkne hk
        rw [alookup_ainsert_ne _ _ _ _ (fun h => hkne h.symm), hFframe k hk,
          addView_nodes, alookup_ainsert_ne _ _ _ _ (fun h => hkne h.symm)]
      · unfold RepTree
        rw [hs]
        refine ⟨_, alookup_ainsert_self _ _ _, rfl, hnat.symm, rfl, ?_, ?_⟩
        · rw [hnat]
          rfl
        · rw [hnat, hnew]
          exact (RepLF_congr _ _ _ newIds (subviewList v.bodyOf) 0
            (fun i cv c' hcv => and_congr_right (fun _ =>
              RepF_stable (VView.vsize cv) cv (VView.vsize cv) s t.nextId _ i c'
                le_rfl le_rfl (by have := vsize_child_lt hcv; omega)))).mp
            (RepLF_transport (hextT _) newIds (subviewList v.bodyOf) 0 hrepl)
      · intro k hk
        rw [alookup_ainsert] at hk
        by_cases hkid : id = k
        · subst hkid
          exact lt_of_lt_of_le hid hFnext
        · rw [if_neg hkid] at hk
          exact hFbound k hk
      · intro k n hkn
        rw [alookup_ainsert] at hkn
        by_cases hkid : id = k
        · rw [if_pos hkid] at hkn
          cases hkn
          right
          constructor
          · intro i hi
            have hi' : i ∈ newIds := by
              rw [← hnew]
              exact hi
            exact ⟨hnewlo i hi', RepLF_lookup _ _ newIds (subviewList v.bodyOf) 0
              (RepLF_transport (hextT _) newIds (subviewList v.bodyOf) 0 hrepl)
              i hi'⟩
          · rfl
        · rw [if_neg hkid] at hkn
          rcases hFdisj k n hkn with h | h
          · left
            rw [addView_nodes, alookup_ainsert_ne _ _ _ _ hkid] at h
            exact h
          · right
            exact LocalOkB_mono (hextT _) h
    | false =>
      have hlk₁ : alookup (addView t id v start).nodes id =
          some ⟨v, false, none, none, ⟨start, 0⟩, t.nextStateId, []⟩ := by
        rw [addView_nodes, hnat]
        exact alookup_ainsert_self _ _ _
      obtain ⟨hFby, hFframe, hFnext, hFbound, hFroot, hFcrash,
        ⟨newIds, hnew, hnewlo, hrepl, nvAdd, hnv, hnvlen, hcur⟩, hFdisj⟩ :=
        childLoop_fresh g' m (ih g') id none t.nextId (subviewList v.bodyOf)
          ⟨addView t id v start, [], 0, [], [], start⟩ hsize rfl hlo₁ hbound₁
      have hcf : List.foldl (childStep (diffFuel g') id none)
          (⟨addView t id v start, [], 0, [], [], start⟩ : ChildLoop)
          (subviewList v.bodyOf) =
          childFold g' id none v.bodyOf (addView t id v start) start := rfl
      simp only [hcf, addView_nextId, addView_root, addView_crashed, List.nil_append] at hFby hFframe hFnext hFbound hFroot hFcrash hnew hnewlo hrepl hnv hnvlen hcur hFdisj
      have hextT : ∀ (b : TreeNode), FieldExt t.nextId
          (childFold g' id none v.bodyOf (addView t id v start) start).t.nodes
          (ainsert (childFold g' id none v.bodyOf
            (addView t id v start) start).t.nodes id b) := by
        intro b k n hk hn
        refine ⟨n, ?_, rfl, rfl, rfl, rfl⟩
        rw [alookup_ainsert_ne _ _ _ _ (Nat.ne_of_lt (lt_of_lt_of_le hid hk))]
        exact hn
      have hlencong : ∀ (b : TreeNode),
          lenSum (ainsert (childFold g' id none v.bodyOf
            (addView t id v start) start).t.nodes id b) newIds =
          lenSum (childFold g' id none v.bodyOf
            (addView t id v start) start).t.nodes newIds := by
        intro b
        apply lenSum_congr
        intro i hi
        exact alookup_ainsert_ne _ _ _ _
          (Nat.ne_of_lt (lt_of_lt_of_le hid (hnewlo i hi)))
      have hlk2 : alookup (childFold g' id none v.bodyOf
          (addView t id v start) start).t.nodes id =
          some ⟨v, false, none, none, ⟨start, 0⟩, t.nextStateId, []⟩ :=
        (hFframe id hid).trans hlk₁
      have heval := diffFuel_fresh_eval_nonnat g' t id v start hnone hnat hFby
        ⟨v, false, none, none, ⟨start, 0⟩, t.nextStateId, []⟩ hlk2 rfl
      rw [setNode_setNode] at heval
      rw [heval]
      unfold FreshConcl
      dsimp only
      refine ⟨?_, ?_, ⟨_, alookup_ainsert_self _ _ _, rfl⟩, hFnext, ?_, hFroot,
        hFcrash, ?_⟩
      · intro k hkne hk
        rw [alookup_ainsert_ne _ _ _ _ (fun h => hkne h.symm), hFframe k hk,
          addView_nodes, alookup_ainsert_ne _ _ _ _ (fun h => hkne h.symm)]
      · unfold RepTree
        rw [hs]
        refine ⟨_, alookup_ainsert_self _ _ _, rfl, hnat.symm, rfl, ?_, ?_⟩
        · simp only [hnat, Bool.false_eq_true, if_false]
          rw [hnew, hnv, hlencong]
          exact hnvlen
        · rw [hnat, hnew]
          exact (RepLF_congr _ _ _ newIds (subviewList v.bodyOf) start
            (fun i cv c' hcv => and_congr_right (fun _ =>
              RepF_stable (VView.vsize cv) cv (VView.vsize cv) s t.nextId _ i c'
                le_rfl le_rfl (by have := vsize_child_lt hcv; omega)))).mp
            (RepLF_transport (hextT _) newIds (subviewList v.bodyOf) start hrepl)
      · intro k hk
        rw [alookup_ainsert] at hk
        by_cases hkid : id = k
        · subst hkid
          exact lt_of_lt_of_le hid hFnext
        · rw [if_neg hkid] at hk
          exact hFbound k hk
      · intro k n hkn
        rw [alookup_ainsert] at hkn
        by_cases hkid : id = k
        · rw [if_pos hkid] at hkn
          cases hkn
          right
          constructor
          · intro i hi
            have hi' : i ∈ newIds := by
              rw [← hnew]
              exact hi
            exact ⟨hnewlo i hi', RepLF_lookup _ _ newIds (subviewList v.bodyOf)
              start
              (RepLF_transport (hextT _) newIds (subviewList v.bodyOf) start
                hrepl)
              i hi'⟩
          · simp only [Bool.false_eq_true, if_false]
            rw [hnew, hnv, hlencong]
            exact hnvlen
        · rw [if_neg hkid] at hkn
          rcases hFdisj k n hkn with h | h
          · left
            rw [addView_nodes, alookup_ainsert_ne _ _ _ _ hkid] at h
            exact h
          · right
            exact LocalOkB_mono (hextT _) h

theorem alookup_cons_self {κ α : Type} [DecidableEq κ] (m : List (κ × α)) (k : κ)
    (v : α) : alookup ((k, v) :: m) k = some v := by
  simp [alookup]

theorem aerase_cons_self {κ α : Type} [DecidableEq κ] (m : List (κ × α)) (k : κ)
    (v : α) : aerase ((k, v) :: m) k = m := by
  simp [aerase]

theorem alookup_append_of_none {κ α : Type} [DecidableEq κ]
    (m m' : List (κ × α)) (k : κ) (h : alookup m k = none) :
    alookup (m ++ m') k = alookup m' k := by
  induction m with
  | nil => rfl
  | cons hd tl ih =>
    obtain ⟨k₀, v₀⟩ := hd
    by_cases h₀ : k₀ = k
    · simp [alookup, h₀] at h
    · simp only [alookup, h₀, if_false] at h
      simp only [List.cons_append, alookup, h₀, if_false]
      exact ih h

theorem ainsert_append_of_none {κ α : Type} [DecidableEq κ]
    (m : List (κ × α)) (k : κ) (v : α) (h : alookup m k = none) :
    ainsert m k v = m ++ [(k, v)] := by
  induction m with
  | nil => rfl
  | cons hd tl ih =>
    obtain ⟨k₀, v₀⟩ := hd
    by_cases h₀ : k₀ = k
    · simp [alookup, h₀] at h
    · simp only [alookup, h₀, if_false] at h
      simp only [ainsert, h₀, if_false, List.cons_append]
      rw [ih h]

theorem user_mem_keysFrom : ∀ (kos : List (Option Nat)) (ctr u : Nat),
    RKey.user u ∈ keysFrom ctr kos → some u ∈ kos := by
  intro kos
  induction kos with
  | nil => intro ctr u h; exact absurd h (List.not_mem_nil _)
  | cons k rest ih =>
    intro ctr u h
    simp only [keysFrom, List.mem_cons] at h
    rcases h with h | h
    · cases k with
      | some k₀ =>
        simp only [nextKey, RKey.user.injEq] at h
        subst h
        exact List.mem_cons_self _ _
      | none => simp [nextKey] at h
    · exact List.mem_cons_of_mem _ (ih _ u h)

theorem auto_mem_keysFrom_ge : ∀ (kos : List (Option Nat)) (ctr a : Nat),
    RKey.auto a ∈ keysFrom ctr kos → ctr ≤ a := by
  intro kos
  induction kos with
  | nil => intro ctr a h; exact absurd h (List.not_mem_nil _)
  | cons k rest ih =>
    intro ctr a h
    simp only [keysFrom, List.mem_cons] at h
    rcases h with h | h
    · cases k with
      | some k₀ => simp [nextKey] at h
      | none =>
        simp only [nextKey, RKey.auto.injEq] at h
        omega
    · cases k with
      | some k₀ => exact ih ctr a h
      | none => exact le_trans (Nat.le_succ ctr) (ih (ctr + 1) a h)

theorem nodupB_cons (x : Nat) (r : List Nat) :
    nodupB (x :: r) = true ↔ x ∉ r ∧ nodupB r = true := by
  simp [nodupB]

theorem keysFrom_nodup : ∀ (kos : List (Option Nat)) (ctr : Nat),
    nodupB (kos.filterMap (fun k => k)) = true →
    (keysFrom ctr kos).Nodup := by
  intro kos
  induction kos with
  | nil => intro ctr _; exact List.nodup_nil
  | cons k rest ih =>
    intro ctr h
    cases k with
    | some u =>
      rw [show (some u :: rest).filterMap (fun k => k) =
          u :: rest.filterMap (fun k => k) from by simp] at h
      rw [nodupB_cons] at h
      simp only [keysFrom, nextKey, List.nodup_cons]
      refine ⟨fun hmem => ?_, ih ctr h.2⟩
      have hm := user_mem_keysFrom rest ctr u hmem
      exact h.1 (List.mem_filterMap.mpr ⟨some u, hm, rfl⟩)
    | none =>
      rw [show (none :: rest).filterMap (fun k => (k : Option Nat)) =
          rest.filterMap (fun k => k) from by simp] at h
      simp only [keysFrom, nextKey, List.nodup_cons]
      refine ⟨fun hmem => ?_, ih (ctr + 1) h⟩
      have hm := auto_mem_keysFrom_ge rest (ctr + 1) ctr hmem
      omega

/-- The per-id step of `buildKeyMap`, lifted to a named function. -/
def bkmStep (t : ViewTree) (acc : List (RKey × ViewId) × Nat × Bool) (id : ViewId) :
    List (RKey × ViewId) × Nat × Bool :=
  match alookup t.nodes id with
  | none => (acc.1, acc.2.1, true)
  | some node =>
    (ainsert acc.1 (nextKey node.view.keyOf acc.2.1).1 id,
     (nextKey node.view.keyOf acc.2.1).2, acc.2.2)

theorem buildKeyMap_eq (t : ViewTree) (subviews : List ViewId) :
    buildKeyMap t subviews =
      ((subviews.foldl (bkmStep t) ([], 0, false)).1,
       (subviews.foldl (bkmStep t) ([], 0, false)).2.2) := rfl

/-- On a child list represented by `RepLF`, `buildKeyMap`'s fold appends the
`keysFrom`-zip of the stored views' keys, never crashing and never
overwriting, provided the upcoming keys are fresh for the accumulator and
pairwise distinct. -/
theorem buildKeyMap_fold : ∀ (cs : List VView) (ids : List ViewId) (t : ViewTree)
    (acc : List (RKey × ViewId)) (ctr : Nat) (cur : Nat),
    RepLF (fun i cv c => RepF (VView.vsize cv) 0 t.nodes i cv c) t.nodes ids cs cur →
    (∀ k ∈ keysFrom ctr (cs.map VView.keyOf), alookup acc k = none) →
    (keysFrom ctr (cs.map VView.keyOf)).Nodup →
    ∃ ctrEnd, ids.foldl (bkmStep t) (acc, ctr, false) =
      (acc ++ List.zip (keysFrom ctr (cs.map VView.keyOf)) ids, ctrEnd, false) := by
  intro cs
  induction cs with
  | nil =>
    intro ids t acc ctr cur hrep _ _
    cases ids with
    | nil => exact ⟨ctr, by simp [keysFrom]⟩
    | cons i is => exact absurd hrep (by simp [RepLF])
  | cons c cs' ih =>
    intro ids t acc ctr cur hrep hacc hnd
    cases ids with
    | nil => exact absurd hrep (by simp [RepLF])
    | cons i₁ ids' =>
      obtain ⟨hR, n₁, hn₁, hrest⟩ := hrep
      obtain ⟨s, hs⟩ : ∃ s, VView.vsize c = s + 1 :=
        ⟨VView.vsize c - 1, by have := VView.vsize_pos c; omega⟩
      rw [hs] at hR
      obtain ⟨n₁', hn₁', hview₁, _⟩ := hR
      have hne : n₁' = n₁ := by
        rw [hn₁] at hn₁'
        exact (Option.some.inj hn₁').symm
      subst hne
      simp only [List.map_cons, keysFrom] at hacc hnd ⊢
      rw [List.nodup_cons] at hnd
      simp only [List.foldl_cons]
      have hstep : bkmStep t (acc, ctr, false) i₁ =
          (acc ++ [((nextKey c.keyOf ctr).1, i₁)], (nextKey c.keyOf ctr).2, false) := by
        unfold bkmStep
        simp only [hn₁, hview₁]
        rw [ainsert_append_of_none _ _ _
          (hacc (nextKey c.keyOf ctr).1 (List.mem_cons_self _ _))]
      rw [hstep]
      obtain ⟨ctrEnd, hrec⟩ := ih ids' t (acc ++ [((nextKey c.keyOf ctr).1, i₁)])
        (nextKey c.keyOf ctr).2 (cur + n₁'.nvSubregion.len) hrest
        (fun k hk => by
          rw [alookup_append_of_none _ _ _
            (hacc k (List.mem_cons_of_mem _ hk))]
          have hkne : (nextKey c.keyOf ctr).1 ≠ k := fun hh => hnd.1 (hh ▸ hk)
          simp [alookup, hkne])
        hnd.2
      refine ⟨ctrEnd, ?_⟩
      rw [hrec, List.append_assoc]
      rfl

/-- Patch classifier: the set-child-region patch kind. -/
def VPatch.isSubviewRegion : VPatch → Bool
  | .subviewRegion _ _ _ _ => true
  | _ => false

/-- What re-diffing an unchanged descriptor over its own representation
guarantees: the node map and every non-patch field are untouched, and the
patch queue grows only by set-child-region patches. -/
def ReConcl (t : ViewTree) (id : ViewId) (v : VView) (start : Nat)
    (res : ViewTree × List ViewId) : Prop :=
  res.1.nodes = t.nodes ∧
  res.1.root = t.root ∧
  res.1.nextId = t.nextId ∧
  res.1.nextStateId = t.nextStateId ∧
  res.1.events = t.events ∧
  res.1.crashed = t.crashed ∧
  (∃ ps, res.1.patches = t.patches ++ ps ∧
    ps.all VPatch.isSubviewRegion = true) ∧
  (∃ n, alookup t.nodes id = some n ∧ res.2.length = n.nvSubregion.len)

/-- The matched branch of the child loop: the new child's key hits the head of
the old-subview key map. -/
theorem childStep_hit (dif : ViewTree → ViewId → VView → Nat → ViewTree × List ViewId)
    (sv : ViewId) (anc : Option ViewId) (st : ChildLoop) (c : VView) (i₁ : ViewId)
    (rest : List (RKey × ViewId))
    (hb : st.bykey = ((nextKey c.keyOf st.autoCtr).1, i₁) :: rest) :
    childStep dif sv anc st c =
      { t := (dif st.t i₁ c st.cursor).1,
        bykey := rest,
        autoCtr := (nextKey c.keyOf st.autoCtr).2,
        newSubviews := st.newSubviews ++ [i₁],
        nvSubviews := st.nvSubviews ++ (dif st.t i₁ c st.cursor).2,
        cursor := st.cursor + (dif st.t i₁ c st.cursor).2.length } := by
  unfold childStep
  rw [hb]
  dsimp only
  rw [alookup_cons_self, aerase_cons_self]

/-- The child loop of a re-diff: every new child hits its old identity through
the key map in order, each recursive diff leaves the node map untouched, and
the loop consumes the key map entirely. -/
theorem childLoop_rediff (g m : Nat)
    (IH : ∀ (c : VView) (t : ViewTree) (i : ViewId) (start : Nat),
      VView.vsize c ≤ m → VView.vsize c ≤ g → VView.wellKeyed c = true →
      RepF (VView.vsize c) 0 t.nodes i c start →
      ReConcl t i c start (diffFuel g t i c start))
    (sv : ViewId) (anc : Option ViewId) :
    ∀ (cs : List VView) (ids : List ViewId) (st : ChildLoop),
      (∀ c ∈ cs, VView.vsize c ≤ m ∧ VView.vsize c ≤ g ∧
        VView.wellKeyed c = true) →
      st.bykey = List.zip (keysFrom st.autoCtr (cs.map VView.keyOf)) ids →
      RepLF (fun i cv c => RepF (VView.vsize cv) 0 st.t.nodes i cv c)
        st.t.nodes ids cs st.cursor →
      ((cs.foldl (childStep (diffFuel g) sv anc) st).t.nodes = st.t.nodes ∧
       (cs.foldl (childStep (diffFuel g) sv anc) st).t.root = st.t.root ∧
       (cs.foldl (childStep (diffFuel g) sv anc) st).t.nextId = st.t.nextId ∧
       (cs.foldl (childStep (diffFuel g) sv anc) st).t.nextStateId =
         st.t.nextStateId ∧
       (cs.foldl (childStep (diffFuel g) sv anc) st).t.events = st.t.events ∧
       (cs.foldl (childStep (diffFuel g) sv anc) st).t.crashed = st.t.crashed ∧
       (∃ ps, (cs.foldl (childStep (diffFuel g) sv anc) st).t.patches =
         st.t.patches ++ ps ∧ ps.all VPatch.isSubviewRegion = true) ∧
       (cs.foldl (childStep (diffFuel g) sv anc) st).bykey = [] ∧
       (cs.foldl (childStep (diffFuel g) sv anc) st).newSubviews =
         st.newSubviews ++ ids ∧
       (∃ nv, (cs.foldl (childStep (diffFuel g) sv anc) st).nvSubviews =
           st.nvSubviews ++ nv ∧
         nv.length = lenSum st.t.nodes ids ∧
         (cs.foldl (childStep (diffFuel g) sv anc) st).cursor =
           st.cursor + nv.length)) := by
  intro cs
  induction cs with
  | nil =>
    intro ids st _ hb hrep
    cases ids with
    | nil =>
      refine ⟨rfl, rfl, rfl, rfl, rfl, rfl, ⟨[], (List.append_nil _).symm, rfl⟩,
        ?_, (List.append_nil _).symm,
        ⟨[], (List.append_nil _).symm, rfl, (Nat.add_zero _).symm⟩⟩
      simp only [List.foldl_nil]
      rw [hb]
      rfl
    | cons i is => exact absurd hrep (by simp [RepLF])
  | cons c cs' ih =>
    intro ids st hcs hb hrep
    cases ids with
    | nil => exact absurd hrep (by simp [RepLF])
    | cons i₁ ids' =>
      obtain ⟨hR, n₁, hn₁, hrest⟩ := hrep
      simp only [List.map_cons, keysFrom, List.zip_cons_cons] at hb
      have hstep := childStep_hit (diffFuel g) sv anc st c i₁ _ hb
      obtain ⟨hC1, hC2, hC3, hC4, hC5, hC6, ⟨ps₁, hps₁, hall₁⟩, n₁', hn₁', hlen₁⟩ :=
        IH c st.t i₁ st.cursor (hcs c (List.mem_cons_self c cs')).1
          (hcs c (List.mem_cons_self c cs')).2.1
          (hcs c (List.mem_cons_self c cs')).2.2 hR
      have hne : n₁' = n₁ := by
        rw [hn₁] at hn₁'
        exact (Option.some.inj hn₁').symm
      subst hne
      simp only [List.foldl_cons, hstep]
      have hrest' : RepLF (fun i cv cc => RepF (VView.vsize cv) 0
            (diffFuel g st.t i₁ c st.cursor).1.nodes i cv cc)
          (diffFuel g st.t i₁ c st.cursor).1.nodes ids' cs'
          (st.cursor + (diffFuel g st.t i₁ c st.cursor).2.length) := by
        rw [hC1, hlen₁]
        exact hrest
      obtain ⟨hR1, hR2, hR3, hR4, hR5, hR6, ⟨ps₂, hps₂, hall₂⟩, hRby, hRnew,
        ⟨nv₂, hnv₂, hnvlen₂, hcur₂⟩⟩ :=
        ih ids' ⟨(diffFuel g st.t i₁ c st.cursor).1,
            List.zip (keysFrom (nextKey c.keyOf st.autoCtr).2
              (cs'.map VView.keyOf)) ids',
            (nextKey c.keyOf st.autoCtr).2, st.newSubviews ++ [i₁],
            st.nvSubviews ++ (diffFuel g st.t i₁ c st.cursor).2,
            st.cursor + (diffFuel g st.t i₁ c st.cursor).2.length⟩
          (fun x hx => hcs x (List.mem_cons_of_mem c hx)) rfl hrest'
      refine ⟨hR1.trans hC1, hR2.trans hC2, hR3.trans hC3, hR4.trans hC4,
        hR5.trans hC5, hR6.trans hC6,
        ⟨ps₁ ++ ps₂, ?_, ?_⟩, hRby, ?_, ?_⟩
      · rw [hps₂, hps₁, List.append_assoc]
      · rw [List.all_append, hall₁, hall₂]
        rfl
      · rw [hRnew, List.append_assoc]
        rfl
      · refine ⟨(diffFuel g st.t i₁ c st.cursor).2 ++ nv₂, ?_, ?_, ?_⟩
        · rw [hnv₂, List.append_assoc]
        · rw [List.length_append, hlen₁, hnvlen₂, hC1, lenSum_cons, hn₁]
        · rw [hcur₂, List.length_append, Nat.add_assoc]

/-- `diff`'s dispatch on an unchanged descriptor: same tag, equal view, no
update, no replace - the tree is returned untouched. -/
theorem diffBranch_same (t : ViewTree) (id : ViewId) (v : VView) (start : Nat)
    (n : TreeNode) (hlk : alookup t.nodes id = some n) (hview : n.view = v) :
    diffBranch t id v start = t := by
  have hbq : VView.beqv v v = true := (VView.beqv_iff v v).mpr rfl
  unfold diffBranch
  simp only [hlk, hview, hbq, eq_self_iff_true, if_true]

/-- Evaluation of `diff_subviews` with a propositionally-known key map. -/
theorem diffSubviewsCore_eval
    (dif : ViewTree → ViewId → VView → Nat → ViewTree × List ViewId)
    (t : ViewTree) (sv : ViewId) (body : VView) (substart : Nat) (nsv : TreeNode)
    (bk0 : List (RKey × ViewId))
    (hlksv : alookup t.nodes sv = some nsv)
    (hbkm : buildKeyMap t nsv.subviews = (bk0, false)) :
    diffSubviewsCore dif t sv body substart =
      (let st := (subviewList body).foldl (childStep dif sv
          (if nsv.isNat then some sv else nsv.nvAncestor))
          ⟨t, bk0, 0, [], [], substart⟩
       let t2 := st.bykey.foldl (fun t kv => removeView t kv.2 true) st.t
       let t3 := (match (if nsv.isNat then some sv else nsv.nvAncestor) with
         | some a => pushPatch t2 (.subviewRegion a nsv.nvSubregion.pos
             nsv.nvSubregion.len st.nvSubviews)
         | none => t2)
       let t4 := (match alookup t3.nodes sv with
         | none => setCrashed t3
         | some n => setNode t3 sv
             { n with subviews := st.newSubviews,
                      nvSubregion := ⟨substart, st.nvSubviews.length⟩ })
       (t4, st.nvSubviews)) := by
  unfold diffSubviewsCore
  rw [hlksv]
  simp only [hbkm]
  rfl

/-- The child loop of `diff_subviews` from an arbitrary old-subview key map. -/
def childFoldB (g : Nat) (sv : ViewId) (anc : Option ViewId) (body : VView)
    (t : ViewTree) (bk : List (RKey × ViewId)) (substart : Nat) : ChildLoop :=
  (subviewList body).foldl (childStep (diffFuel g) sv anc) ⟨t, bk, 0, [], [], substart⟩

theorem diffFuel_rediff_eval_nat (g' : Nat) (t : ViewTree) (id : ViewId) (v : VView)
    (start : Nat) (n : TreeNode) (bk0 : List (RKey × ViewId))
    (hlk : alookup t.nodes id = some n) (hview : n.view = v)
    (hnatn : n.isNat = true)
    (hbkm : buildKeyMap t n.subviews = (bk0, false))
    (hby : (childFoldB g' id (some id) v.bodyOf t bk0 0).bykey = [])
    (n₂ : TreeNode)
    (hlk2 : alookup (childFoldB g' id (some id) v.bodyOf t bk0 0).t.nodes id
      = some n₂)
    (hn2nat : n₂.isNat = true) :
    diffFuel (g' + 1) t id v start =
      (setNode
        (setNode
          (pushPatch (childFoldB g' id (some id) v.bodyOf t bk0 0).t
            (.subviewRegion id n.nvSubregion.pos n.nvSubregion.len
              (childFoldB g' id (some id) v.bodyOf t bk0 0).nvSubviews))
          id { n₂ with
            subviews := (childFoldB g' id (some id) v.bodyOf t bk0 0).newSubviews,
            nvSubregion := ⟨0,
              (childFoldB g' id (some id) v.bodyOf t bk0 0).nvSubviews.length⟩ })
        id { n₂ with
          subviews := (childFoldB g' id (some id) v.bodyOf t bk0 0).newSubviews,
          nvSubregion := ⟨start, 1⟩ },
       [id]) := by
  have hbr := diffBranch_same t id v start n hlk hview
  have hDS := diffSubviewsCore_eval (diffFuel g') t id v.bodyOf 0 n bk0 hlk hbkm
  simp only [hnatn, reduceIte] at hDS
  have hcf : List.foldl (childStep (diffFuel g') id (some id))
      (⟨t, bk0, 0, [], [], 0⟩ : ChildLoop) (subviewList v.bodyOf) =
      childFoldB g' id (some id) v.bodyOf t bk0 0 := rfl
  rw [hcf] at hDS
  unfold diffFuel
  rw [hbr]
  simp only [hlk, hview, hnatn, reduceIte]
  rw [hDS]
  simp only [hby, List.foldl_nil, pushPatch_nodes, hlk2, setNode_nodes,
    alookup_ainsert_self, hn2nat, reduceIte]

theorem diffFuel_rediff_eval_nonnat (g' : Nat) (t : ViewTree) (id : ViewId)
    (v : VView) (start : Nat) (n : TreeNode) (bk0 : List (RKey × ViewId))
    (hlk : alookup t.nodes id = some n) (hview : n.view = v)
    (hnatn : n.isNat = false)
    (hbkm : buildKeyMap t n.subviews = (bk0, false))
    (hby : (childFoldB g' id n.nvAncestor v.bodyOf t bk0 start).bykey = [])
    (n₂ : TreeNode)
    (hlk2 : alookup (childFoldB g' id n.nvAncestor v.bodyOf t bk0 start).t.nodes id
      = some n₂)
    (hn2nat : n₂.isNat = false) :
    diffFuel (g' + 1) t id v start =
      (setNode
        (setNode
          (match n.nvAncestor with
            | some a => pushPatch
                (childFoldB g' id n.nvAncestor v.bodyOf t bk0 start).t
                (.subviewRegion a n.nvSubregion.pos n.nvSubregion.len
                  (childFoldB g' id n.nvAncestor v.bodyOf t bk0 start).nvSubviews)
            | none => (childFoldB g' id n.nvAncestor v.bodyOf t bk0 start).t)
          id { n₂ with
            subviews :=
              (childFoldB g' id n.nvAncestor v.bodyOf t bk0 start).newSubviews,
            nvSubregion := ⟨start,
              (childFoldB g' id n.nvAncestor v.bodyOf t bk0 start).nvSubviews.length⟩ })
        id { n₂ with
          subviews :=
            (childFoldB g' id n.nvAncestor v.bodyOf t bk0 start).newSubviews,
          nvSubregion := ⟨start,
            (childFoldB g' id n.nvAncestor v.bodyOf t bk0 start).nvSubviews.length⟩ },
       (childFoldB g' id n.nvAncestor v.bodyOf t bk0 start).nvSubviews) := by
  have hbr := diffBranch_same t id v start n hlk hview
  have hDS := diffSubviewsCore_eval (diffFuel g') t id v.bodyOf start n bk0 hlk hbkm
  simp only [hnatn, Bool.false_eq_true, if_false] at hDS
  have hcf : List.foldl (childStep (diffFuel g') id n.nvAncestor)
      (⟨t, bk0, 0, [], [], start⟩ : ChildLoop) (subviewList v.bodyOf) =
      childFoldB g' id n.nvAncestor v.bodyOf t bk0 start := rfl
  rw [hcf] at hDS
  unfold diffFuel
  rw [hbr]
  simp only [hlk, hview, hnatn, Bool.false_eq_true, if_false]
  rw [hDS]
  have hT3 : (match n.nvAncestor with
      | some a => pushPatch (childFoldB g' id n.nvAncestor v.bodyOf t bk0 start).t
          (VPatch.subviewRegion a n.nvSubregion.pos n.nvSubregion.len
            (childFoldB g' id n.nvAncestor v.bodyOf t bk0 start).nvSubviews)
      | none => (childFoldB g' id n.nvAncestor v.bodyOf t bk0 start).t).nodes =
      (childFoldB g' id n.nvAncestor v.bodyOf t bk0 start).t.nodes := by
    cases n.nvAncestor <;> rfl
  simp only [hby, List.foldl_nil]
  rw [hT3]
  simp only [hlk2, setNode_nodes, alookup_ainsert_self, hn2nat,
    Bool.false_eq_true, if_false]

/-- Re-diffing an unchanged, well-keyed descriptor over its own
representation leaves the node map and all non-patch state untouched and
appends only set-child-region patches. -/
theorem diff_rediff : ∀ (m g : Nat) (v : VView) (t : ViewTree) (id : ViewId)
    (start : Nat),
    VView.vsize v ≤ m → VView.vsize v ≤ g → VView.wellKeyed v = true →
    RepF (VView.vsize v) 0 t.nodes id v start →
    ReConcl t id v start (diffFuel g t id v start) := by
  intro m
  induction m with
  | zero =>
    intro g v t id start hm _ _ _
    exact absurd hm (by have := VView.vsize_pos v; omega)
  | succ m ih =>
    intro g v t id start hm hg hwk hrep
    obtain ⟨g', rfl⟩ : ∃ g0, g = g0 + 1 :=
      ⟨g - 1, by have := VView.vsize_pos v; omega⟩
    obtain ⟨s, hs⟩ : ∃ s, VView.vsize v = s + 1 :=
      ⟨VView.vsize v - 1, by have := VView.vsize_pos v; omega⟩
    rw [hs] at hrep
    obtain ⟨n, hlk, hview, hnisnat, hpos, hlen, hch⟩ := hrep
    obtain ⟨hnd, hckW⟩ := wellKeyed_children hwk
    have hsize : ∀ c ∈ subviewList v.bodyOf,
        VView.vsize c ≤ m ∧ VView.vsize c ≤ g' ∧ VView.wellKeyed c = true := by
      intro c hc
      have := vsize_child_lt hc
      exact ⟨by omega, by omega, hckW c hc⟩
    have hch' : RepLF (fun i cv c => RepF (VView.vsize cv) 0 t.nodes i cv c)
        t.nodes n.subviews (subviewList v.bodyOf)
        (if v.nativeOf.isSome then 0 else start) :=
      (RepLF_congr _ _ t.nodes n.subviews (subviewList v.bodyOf) _
        (fun i cv c' hcv => by
          have hlt := vsize_child_lt hcv
          constructor
          · rintro ⟨_, h⟩
            exact (RepF_stable (VView.vsize cv) cv s (VView.vsize cv) 0 t.nodes
              i c' le_rfl (by omega) le_rfl).mp h
          · intro h
            exact ⟨Nat.zero_le i, (RepF_stable (VView.vsize cv) cv
              (VView.vsize cv) s 0 t.nodes i c' le_rfl le_rfl (by omega)).mp h⟩)).mp
        hch
    have hndk : (keysFrom 0 ((subviewList v.bodyOf).map VView.keyOf)).Nodup := by
      apply keysFrom_nodup
      rw [List.filterMap_map]
      exact hnd
    obtain ⟨ctrE, hfold⟩ := buildKeyMap_fold (subviewList v.bodyOf) n.subviews t
      [] 0 (if v.nativeOf.isSome then 0 else start) hch' (fun k _ => rfl) hndk
    have hbkm : buildKeyMap t n.subviews =
        (List.zip (keysFrom 0 ((subviewList v.bodyOf).map VView.keyOf))
          n.subviews, false) := by
      rw [buildKeyMap_eq, hfold]
      simp
    cases hnat : v.nativeOf.isSome with
    | true =>
      rw [hnat] at hch'
      obtain ⟨hL1, hL2, hL3, hL4, hL5, hL6, ⟨ps₀, hps₀, hall₀⟩, hLby, hLnew,
        ⟨nv₀, hnv₀, hnvlen₀, hcur₀⟩⟩ :=
        childLoop_rediff g' m (ih g') id (some id) (subviewList v.bodyOf)
          n.subviews
          ⟨t, List.zip (keysFrom 0 ((subviewList v.bodyOf).map VView.keyOf))
            n.subviews, 0, [], [], 0⟩ hsize rfl hch'
      have hcf : List.foldl (childStep (diffFuel g') id (some id))
          (⟨t, List.zip (keysFrom 0 ((subviewList v.bodyOf).map VView.keyOf))
            n.subviews, 0, [], [], 0⟩ : ChildLoop) (subviewList v.bodyOf) =
          childFoldB g' id (some id) v.bodyOf t
            (List.zip (keysFrom 0 ((subviewList v.bodyOf).map VView.keyOf))
              n.subviews) 0 := rfl
      simp only [hcf, List.nil_append] at hL1 hL2 hL3 hL4 hL5 hL6 hps₀ hLby hLnew hnv₀ hnvlen₀ hcur₀
      have hlen1 : n.nvSubregion.len = 1 := by
        rw [hlen, hnat]
        rfl
      have hlk2 : alookup (childFoldB g' id (some id) v.bodyOf t
          (List.zip (keysFrom 0 ((subviewList v.bodyOf).map VView.keyOf))
            n.subviews) 0).t.nodes id = some n := by
        rw [hL1]
        exact hlk
      have heval := diffFuel_rediff_eval_nat g' t id v start n
        (List.zip (keysFrom 0 ((subviewList v.bodyOf).map VView.keyOf))
          n.subviews) hlk hview (hnisnat.trans hnat) hbkm hLby n hlk2
        (hnisnat.trans hnat)
      rw [setNode_setNode_pushPatch] at heval
      rw [heval]
      unfold ReConcl
      dsimp only
      refine ⟨?_, hL2, hL3, hL4, hL5, hL6, ⟨ps₀ ++ [.subviewRegion id
        n.nvSubregion.pos n.nvSubregion.len (childFoldB g' id (some id) v.bodyOf t
          (List.zip (keysFrom 0 ((subviewList v.bodyOf).map VView.keyOf))
            n.subviews) 0).nvSubviews], ?_, ?_⟩, n, hlk, hlen1.symm⟩
      · rw [hL1, hLnew]
        have hsr : (⟨start, 1⟩ : Subregion) = n.nvSubregion := by
          rw [← hpos, ← hlen1]
        rw [hsr]
        exact ainsert_self t.nodes id n hlk
      · rw [hps₀, List.append_assoc]
      · rw [List.all_append, hall₀]
        rfl
    | false =>
      rw [hnat] at hch'
      obtain ⟨hL1, hL2, hL3, hL4, hL5, hL6, ⟨ps₀, hps₀, hall₀⟩, hLby, hLnew,
        ⟨nv₀, hnv₀, hnvlen₀, hcur₀⟩⟩ :=
        childLoop_rediff g' m (ih g') id n.nvAncestor (subviewList v.bodyOf)
          n.subviews
          ⟨t, List.zip (keysFrom 0 ((subviewList v.bodyOf).map VView.keyOf))
            n.subviews, 0, [], [], start⟩ hsize rfl hch'
      have hcf : List.foldl (childStep (diffFuel g') id n.nvAncestor)
          (⟨t, List.zip (keysFrom 0 ((subviewList v.bodyOf).map VView.keyOf))
            n.subviews, 0, [], [], start⟩ : ChildLoop) (subviewList v.bodyOf) =
          childFoldB g' id n.nvAncestor v.bodyOf t
            (List.zip (keysFrom 0 ((subviewList v.bodyOf).map VView.keyOf))
              n.subviews) start := rfl
      simp only [hcf, List.nil_append] at hL1 hL2 hL3 hL4 hL5 hL6 hps₀ hLby hLnew hnv₀ hnvlen₀ hcur₀
      have hlen2 : (childFoldB g' id n.nvAncestor v.bodyOf t
          (List.zip (keysFrom 0 ((subviewList v.bodyOf).map VView.keyOf))
            n.subviews) start).nvSubviews.length = n.nvSubregion.len := by
        rw [hnv₀, hnvlen₀, hlen, hnat]
        simp only [Bool.false_eq_true, if_false]
      have hlk2 : alookup (childFoldB g' id n.nvAncestor v.bodyOf t
          (List.zip (keysFrom 0 ((subviewList v.bodyOf).map VView.keyOf))
            n.subviews) start).t.nodes id = some n := by
        rw [hL1]
        exact hlk
      have heval := diffFuel_rediff_eval_nonnat g' t id v start n
        (List.zip (keysFrom 0 ((subviewList v.bodyOf).map VView.keyOf))
          n.subviews) hlk hview (hnisnat.trans hnat) hbkm hLby n hlk2
        (hnisnat.trans hnat)
      rw [setNode_setNode] at heval
      rw [heval]
      have hT3nodes : (match n.nvAncestor with
          | some a => pushPatch (childFoldB g' id n.nvAncestor v.bodyOf t
              (List.zip (keysFrom 0 ((subviewList v.bodyOf).map VView.keyOf))
                n.subviews) start).t
              (VPatch.subviewRegion a n.nvSubregion.pos n.nvSubregion.len
                (childFoldB g' id n.nvAncestor v.bodyOf t
                  (List.zip (keysFrom 0 ((subviewList v.bodyOf).map VView.keyOf))
                    n.subviews) start).nvSubviews)
          | none => (childFoldB g' id n.nvAncestor v.bodyOf t
              (List.zip (keysFrom 0 ((subviewList v.bodyOf).map VView.keyOf))
                n.subviews) start).t).nodes =
          (childFoldB g' id n.nvAncestor v.bodyOf t
            (List.zip (keysFrom 0 ((subviewList v.bodyOf).map VView.keyOf))
              n.subviews) start).t.nodes := by
        cases n.nvAncestor <;> rfl
      have hT3root : (match n.nvAncestor with
          | some a => pushPatch (childFoldB g' id n.nvAncestor v.bodyOf t
              (List.zip (keysFrom 0 ((subviewList v.bodyOf).map VView.keyOf))
                n.subviews) start).t
              (VPatch.subviewRegion a n.nvSubregion.pos n.nvSubregion.len
                (childFoldB g' id n.nvAncestor v.bodyOf t
                  (List.zip (keysFrom 0 ((subviewList v.bodyOf).map VView.keyOf))
                    n.subviews) start).nvSubviews)
          | none => (childFoldB g' id n.nvAncestor v.bodyOf t
              (List.zip (keysFrom 0 ((subviewList v.bodyOf).map VView.keyOf))
                n.subviews) start).t).root =
          (childFoldB g' id n.nvAncestor v.bodyOf t
            (List.zip (keysFrom 0 ((subviewList v.bodyOf).map VView.keyOf))
              n.subviews) start).t.root := by
        cases n.nvAncestor <;> rfl
      have hT3nextId : (match n.nvAncestor with
          | some a => pushPatch (childFoldB g' id n.nvAncestor v.bodyOf t
              (List.zip (keysFrom 0 ((subviewList v.bodyOf).map VView.keyOf))
                n.subviews) start).t
              (VPatch.subviewRegion a n.nvSubregion.pos n.nvSubregion.len
                (childFoldB g' id n.nvAncestor v.bodyOf t
                  (List.zip (keysFrom 0 ((subviewList v.bodyOf).map VView.keyOf))
                    n.subviews) start).nvSubviews)
          | none => (childFoldB g' id n.nvAncestor v.bodyOf t
              (List.zip (keysFrom 0 ((subviewList v.bodyOf).map VView.keyOf))
                n.subviews) start).t).nextId =
          (childFoldB g' id n.nvAncestor v.bodyOf t
            (List.zip (keysFrom 0 ((subviewList v.bodyOf).map VView.keyOf))
              n.subviews) start).t.nextId := by
        cases n.nvAncestor <;> rfl
      have hT3nextStateId : (match n.nvAncestor with
          | some a => pushPatch (childFoldB g' id n.nvAncestor v.bodyOf t
              (List.zip (keysFrom 0 ((subviewList v.bodyOf).map VView.keyOf))
                n.subviews) start).t
              (VPatch.subviewRegion a n.nvSubregion.pos n.nvSubregion.len
                (childFoldB g' id n.nvAncestor v.bodyOf t
                  (List.zip (keysFrom 0 ((subviewList v.bodyOf).map VView.keyOf))
                    n.subviews) start).nvSubviews)
          | none => (childFoldB g' id n.nvAncestor v.bodyOf t
              (List.zip (keysFrom 0 ((subviewList v.bodyOf).map VView.keyOf))
                n.subviews) start).t).nextStateId =
          (childFoldB g' id n.nvAncestor v.bodyOf t
            (List.zip (keysFrom 0 ((subviewList v.bodyOf).map VView.keyOf))
              n.subviews) start).t.nextStateId := by
        cases n.nvAncestor <;> rfl
      have hT3events : (match n.nvAncestor with
          | some a => pushPatch (childFoldB g' id n.nvAncestor v.bodyOf t
              (List.zip (keysFrom 0 ((subviewList v.bodyOf).map VView.keyOf))
                n.subviews) start).t
              (VPatch.subviewRegion a n.nvSubregion.pos n.nvSubregion.len
                (childFoldB g' id n.nvAncestor v.bodyOf t
                  (List.zip (keysFrom 0 ((subviewList v.bodyOf).map VView.keyOf))
                    n.subviews) start).nvSubviews)
          | none => (childFoldB g' id n.nvAncestor v.bodyOf t
              (List.zip (keysFrom 0 ((subviewList v.bodyOf).map VView.keyOf))
                n.subviews) start).t).events =
          (childFoldB g' id n.nvAncestor v.bodyOf t
            (List.zip (keysFrom 0 ((subviewList v.bodyOf).map VView.keyOf))
              n.subviews) start).t.events := by
        cases n.nvAncestor <;> rfl
      have hT3crashed : (match n.nvAncestor with
          | some a => pushPatch (childFoldB g' id n.nvAncestor v.bodyOf t
              (List.zip (keysFrom 0 ((subviewList v.bodyOf).map VView.keyOf))
                n.subviews) start).t
              (VPatch.subviewRegion a n.nvSubregion.pos n.nvSubregion.len
                (childFoldB g' id n.nvAncestor v.bodyOf t
                  (List.zip (keysFrom 0 ((subviewList v.bodyOf).map VView.keyOf))
                    n.subviews) start).nvSubviews)
          | none => (childFoldB g' id n.nvAncestor v.bodyOf t
              (List.zip (keysFrom 0 ((subviewList v.bodyOf).map VView.keyOf))
                n.subviews) start).t).crashed =
          (childFoldB g' id n.nvAncestor v.bodyOf t
            (List.zip (keysFrom 0 ((subviewList v.bodyOf).map VView.keyOf))
              n.subviews) start).t.crashed := by
        cases n.nvAncestor <;> rfl
      have hT3patches : ∃ ps₁, (match n.nvAncestor with
          | some a => pushPatch (childFoldB g' id n.nvAncestor v.bodyOf t
              (List.zip (keysFrom 0 ((subviewList v.bodyOf).map VView.keyOf))
                n.subviews) start).t
              (VPatch.subviewRegion a n.nvSubregion.pos n.nvSubregion.len
                (childFoldB g' id n.nvAncestor v.bodyOf t
                  (List.zip (keysFrom 0 ((subviewList v.bodyOf).map VView.keyOf))
                    n.subviews) start).nvSubviews)
          | none => (childFoldB g' id n.nvAncestor v.bodyOf t
              (List.zip (keysFrom 0 ((subviewList v.bodyOf).map VView.keyOf))
                n.subviews) start).t).patches =
          (childFoldB g' id n.nvAncestor v.bodyOf t
            (List.zip (keysFrom 0 ((subviewList v.bodyOf).map VView.keyOf))
              n.subviews) start).t.patches ++ ps₁ ∧
          ps₁.all VPatch.isSubviewRegion = true := by
        cases n.nvAncestor with
        | some a =>
          exact ⟨[VPatch.subviewRegion a n.nvSubregion.pos n.nvSubregion.len
            (childFoldB g' id (some a) v.bodyOf t
              (List.zip (keysFrom 0 ((subviewList v.bodyOf).map VView.keyOf))
                n.subviews) start).nvSubviews], rfl, rfl⟩
        | none => exact ⟨[], (List.append_nil _).symm, rfl⟩
      obtain ⟨ps₁, hps₁, hall₁⟩ := hT3patches
      unfold ReConcl
      dsimp only
      refine ⟨?_, hT3root.trans hL2, hT3nextId.trans hL3,
        hT3nextStateId.trans hL4, hT3events.trans hL5, hT3crashed.trans hL6,
        ⟨ps₀ ++ ps₁, ?_, ?_⟩, n, hlk, hlen2⟩
      · rw [hT3nodes, hL1, hLnew]
        have hsr : (⟨start, (childFoldB g' id n.nvAncestor v.bodyOf t
            (List.zip (keysFrom 0 ((subviewList v.bodyOf).map VView.keyOf))
              n.subviews) start).nvSubviews.length⟩ : Subregion) = n.nvSubregion := by
          rw [hlen2, ← hpos]
        rw [hsr]
        exact ainsert_self t.nodes id n hlk
      · rw [hps₁, hps₀, List.append_assoc]
      · rw [List.all_append, hall₀, hall₁]
        rfl

theorem renderRoot_rooted (t : ViewTree) (v : VView) (r : ViewId)
    (hroot : t.root = some r) : t.renderRoot v = (t.diff r v 0).1 := by
  unfold ViewTree.renderRoot
  rw [hroot]

/-- C1 (amended): re-rendering the same well-keyed descriptor a second time
through `render_root` preserves every node, identity, persistent-state id and
counter exactly, fires no lifecycle event, and appends only `SubviewRegion`
patches to the patch queue (no Update, Replace or Remove patch). -/
theorem c1_rediff_amended (v : VView) (hwk : VView.wellKeyed v = true) :
    ((ViewTree.new.renderRoot v).renderRoot v).nodes =
      (ViewTree.new.renderRoot v).nodes ∧
    ((ViewTree.new.renderRoot v).renderRoot v).root =
      (ViewTree.new.renderRoot v).root ∧
    ((ViewTree.new.renderRoot v).renderRoot v).nextId =
      (ViewTree.new.renderRoot v).nextId ∧
    ((ViewTree.new.renderRoot v).renderRoot v).nextStateId =
      (ViewTree.new.renderRoot v).nextStateId ∧
    ((ViewTree.new.renderRoot v).renderRoot v).events =
      (ViewTree.new.renderRoot v).events ∧
    ((ViewTree.new.renderRoot v).renderRoot v).crashed =
      (ViewTree.new.renderRoot v).crashed ∧
    ∃ ps, ((ViewTree.new.renderRoot v).renderRoot v).patches =
        (ViewTree.new.renderRoot v).patches ++ ps ∧
      ps.all VPatch.isSubviewRegion = true := by
  have hRR1 : ViewTree.new.renderRoot v =
      pushPatch (diffFuel (VView.vsize v)
        ⟨[], some 0, [], 1, 0, [], false⟩ 0 v 0).1 (.setRoot 0) := rfl
  obtain ⟨hfr1, hfrRep, hfr3, hfr4, hfr5, hfrRoot, hfrCrash, hfr8⟩ :=
    diff_fresh (VView.vsize v) (VView.vsize v) v
      ⟨[], some 0, [], 1, 0, [], false⟩ 0 0 le_rfl le_rfl rfl
      (fun k hk => by simp [alookup] at hk) Nat.one_pos
  have hroot : (ViewTree.new.renderRoot v).root = some 0 := by
    rw [hRR1, pushPatch_root, hfrRoot]
  have hRR2 : (ViewTree.new.renderRoot v).renderRoot v =
      ((ViewTree.new.renderRoot v).diff 0 v 0).1 :=
    renderRoot_rooted _ v 0 hroot
  have hRep : RepF (VView.vsize v) 0 (ViewTree.new.renderRoot v).nodes 0 v 0 := by
    rw [hRR1, pushPatch_nodes]
    exact RepF_lo_mono (VView.vsize v) 1 0 _ 0 v 0 (Nat.zero_le 1) hfrRep
  obtain ⟨h1, h2, h3, h4, h5, h6, ⟨ps, hps, hall⟩, _⟩ :=
    diff_rediff (VView.vsize v) (VView.vsize v) v
      (ViewTree.new.renderRoot v) 0 0 le_rfl le_rfl hwk hRep
  rw [hRR2]
  exact ⟨h1, h2, h3, h4, h5, h6, ps, hps, hall⟩

/-- C1 (amended) witness: the two-child fragment root `vAB` is well-keyed and
the amended re-diff theorem evaluates on it. -/
theorem c1_rediff_amended_witness :
    VView.wellKeyed vAB = true ∧
    (((ViewTree.new.renderRoot vAB).renderRoot vAB).nodes =
      (ViewTree.new.renderRoot vAB).nodes ∧
    ((ViewTree.new.renderRoot vAB).renderRoot vAB).root =
      (ViewTree.new.renderRoot vAB).root ∧
    ((ViewTree.new.renderRoot vAB).renderRoot vAB).nextId =
      (ViewTree.new.renderRoot vAB).nextId ∧
    ((ViewTree.new.renderRoot vAB).renderRoot vAB).nextStateId =
      (ViewTree.new.renderRoot vAB).nextStateId ∧
    ((ViewTree.new.renderRoot vAB).renderRoot vAB).events =
      (ViewTree.new.renderRoot vAB).events ∧
    ((ViewTree.new.renderRoot vAB).renderRoot vAB).crashed =
      (ViewTree.new.renderRoot vAB).crashed ∧
    ∃ ps, ((ViewTree.new.renderRoot vAB).renderRoot vAB).patches =
        (ViewTree.new.renderRoot vAB).patches ++ ps ∧
      ps.all VPatch.isSubviewRegion = true) :=
  ⟨by decide, c1_rediff_amended vAB (by decide)⟩
